import Mathlib

/-!
Verification development for the hwui deferred-rendering core
(recording → deferral → batching → replay pipeline).

The definitions below are a shallow embedding of the C++ sources:
`libs/hwui/OpReorderer.cpp`, `libs/hwui/RecordingCanvas.cpp`,
`libs/hwui/FrameBuilder.h` and
`libs/hwui/pipeline/skia/RenderNodeDrawable.cpp`.
Float coordinates are embedded as exact rationals (ℚ); machine pointers
are embedded as identity tokens (ℕ); C++ vectors are Lean lists.
-/

/-! ## Geometry: Rect -/

/-- Modelled from the spec: the geometry primitive `Rect` (`Rect.h` is not
under src/; spec §2 lists "Rect/Matrix/ClipArea — geometry primitives").
Semantics follow the uses in `OpReorderer.cpp` / `RecordingCanvas.cpp`:
a rect is empty unless left < right and top < bottom, `intersects` tests
for a non-empty strict overlap, `doIntersect` clamps in place, and
`unionWith` ignores empty arguments. -/
structure Rect where
  left : ℚ
  top : ℚ
  right : ℚ
  bottom : ℚ
deriving DecidableEq, Repr, Inhabited

def Rect.isEmpty (r : Rect) : Bool :=
  !(decide (r.left < r.right) && decide (r.top < r.bottom))

def Rect.intersects (a b : Rect) : Bool :=
  decide (max a.left b.left < min a.right b.right) &&
    decide (max a.top b.top < min a.bottom b.bottom)

def Rect.doIntersect (a b : Rect) : Rect :=
  ⟨max a.left b.left, max a.top b.top, min a.right b.right, min a.bottom b.bottom⟩

def Rect.unionWith (a b : Rect) : Rect :=
  if b.left < b.right ∧ b.top < b.bottom then
    if a.left < a.right ∧ a.top < a.bottom then
      ⟨min a.left b.left, min a.top b.top, max a.right b.right, max a.bottom b.bottom⟩
    else b
  else a

def Rect.translate (r : Rect) (dx dy : ℚ) : Rect :=
  ⟨r.left + dx, r.top + dy, r.right + dx, r.bottom + dy⟩

/-- Modelled from the spec: `Rect::snapToPixelBoundaries` (`Rect.h` not under
src/) rounds each edge to the nearest pixel boundary. -/
def Rect.snapToPixelBoundaries (r : Rect) : Rect :=
  ⟨(⌊r.left + 1/2⌋ : ℤ), (⌊r.top + 1/2⌋ : ℤ), (⌊r.right + 1/2⌋ : ℤ), (⌊r.bottom + 1/2⌋ : ℤ)⟩

def Rect.getWidth (r : Rect) : ℚ := r.right - r.left

def Rect.getHeight (r : Rect) : ℚ := r.bottom - r.top

/-- `a` lies inside `b` (used to state the batch-bounds invariant). -/
def Rect.insideOf (a b : Rect) : Prop :=
  b.left ≤ a.left ∧ b.top ≤ a.top ∧ a.right ≤ b.right ∧ a.bottom ≤ b.bottom

instance (a b : Rect) : Decidable (a.insideOf b) := by
  unfold Rect.insideOf; infer_instance

/-! ## Paints and MathUtils -/

/-- Modelled from the spec: the fields of an `SkPaint` snapshot consulted by
the merge logic (spec §3 "optional paint snapshot (color, alpha,
shader/filter identity, ...)"; SkPaint is an external Skia type).
`pid` is the paint's pointer identity; `colorFilter` and `shader` are
pointer identities of the attached objects; `textShadow` is the presence
of a shadow looper, as tested by `PaintUtils::hasTextShadow`. -/
structure Paint where
  pid : ℕ
  alpha : ℕ
  colorFilter : Option ℕ
  shader : Option ℕ
  textShadow : Bool
deriving DecidableEq, Repr

/-- Modelled from the spec: `PaintUtils::hasTextShadow` (`utils/PaintUtils.h`
not under src/) — whether the (possibly null) paint carries a text shadow. -/
def PaintUtils.hasTextShadow : Option Paint → Bool
  | none => false
  | some p => p.textShadow

/-- Modelled from the spec: `MathUtils::isZero` (`utils/MathUtils.h` not under
src/) — epsilon comparison against NON_ZERO_EPSILON. -/
def MathUtils.isZero (v : ℚ) : Bool :=
  decide (|v| ≤ mkRat 1 1000)

/-- Modelled from the spec: `MathUtils::areEqual`, the "alpha mismatch" test
of spec §4.4 step 2 (`utils/MathUtils.h` not under src/). -/
def MathUtils.areEqual (a b : ℚ) : Bool :=
  MathUtils.isZero (a - b)

/-- C++ pointer equality on optional paints (`newPaint == oldPaint`):
two null pointers are equal, a null and a non-null are not, and two
non-null pointers are equal exactly when they are the same object. -/
def Paint.ptrEq : Option Paint → Option Paint → Bool
  | none, none => true
  | some a, some b => a.pid == b.pid
  | _, _ => false

/-! ## Batch ids, clip side flags, baked op state -/

/- Modelled from the spec: the `OpBatchType` enum (declared in
`OpReorderer.h`, not under src/); only the distinctions used by
`OpReorderer.cpp` matter: `Bitmap`, `Vertices`-family, `Text`, `ColorText`. -/
namespace OpBatchType

def Bitmap : ℕ := 0

def MergedPatch : ℕ := 1

def AlphaVertices : ℕ := 2

def Vertices : ℕ := 3

def AlphaMaskTexture : ℕ := 4

def Text : ℕ := 5

def ColorText : ℕ := 6

end OpBatchType

/- Modelled from the spec: the `OpClipSideFlags` bitmask (declared in
`BakedOpState.h`, not under src/): Left/Top/Right/Bottom bits, `None` = 0. -/
namespace OpClipSideFlags

def None : ℕ := 0

def Left : ℕ := 1

def Top : ℕ := 2

def Right : ℕ := 4

def Bottom : ℕ := 8

end OpClipSideFlags

/-- Modelled from the spec: `BakedOpState` (`BakedOpState.h` not under src/;
spec §3 "BakedOpState": final clipped bounds, resolved clip, resolved alpha,
per-side clip flags). Only the fields read by `OpReorderer.cpp` are kept:
`opKey` is the identity of the underlying recorded op (`state->op`), and
`paint` is the recorded op's paint (`op->op->paint`). -/
structure BakedOpState where
  opKey : ℕ
  clippedBounds : Rect
  clipRect : Rect
  clipSideFlags : ℕ
  alpha : ℚ
  roundRectClipState : Option ℕ
  projectionPathMask : Option ℕ
  paint : Option Paint
deriving DecidableEq, Repr, Inhabited

/-! ## Batches (OpReorderer.cpp: BatchBase / OpBatch / MergingOpBatch) -/

/-- A batch (`BatchBase` with the `OpBatch` / `MergingOpBatch` extensions):
`key` is the arena pointer identity of the batch, `bounds` is `mBounds`
(running union of clipped bounds), `ops` is `mOps`, `merging` is `mMerging`,
and `clipSideFlags` / `clipRect` are the `MergingOpBatch` fields
(`mClipSideFlags` starts at 0, `mClipRect` default-constructed). -/
structure Batch where
  key : ℕ
  batchId : ℕ
  bounds : Rect
  ops : List BakedOpState
  merging : Bool
  clipSideFlags : ℕ
  clipRect : Rect
deriving DecidableEq, Repr, Inhabited

/-- `BatchBase::BatchBase(batchId, op, merging)`. -/
def Batch.mkBase (key : ℕ) (batchId : ℕ) (op : BakedOpState) (merging : Bool) : Batch :=
  { key := key
    batchId := batchId
    bounds := op.clippedBounds
    ops := [op]
    merging := merging
    clipSideFlags := 0
    clipRect := ⟨0, 0, 0, 0⟩ }

/-- `OpBatch::OpBatch(batchId, op)`. -/
def Batch.mkOpBatch (key : ℕ) (batchId : ℕ) (op : BakedOpState) : Batch :=
  Batch.mkBase key batchId op false

/-- `MergingOpBatch::MergingOpBatch(batchId, op)`. -/
def Batch.mkMergingBatch (key : ℕ) (batchId : ℕ) (op : BakedOpState) : Batch :=
  Batch.mkBase key batchId op true

/-- `BatchBase::intersects(rect)`: false unless `rect` overlaps `mBounds`,
then true iff it overlaps some op's clipped bounds. -/
def Batch.intersects (b : Batch) (rect : Rect) : Bool :=
  rect.intersects b.bounds && b.ops.any (fun op => rect.intersects op.clippedBounds)

/-- `OpBatch::batchOp(op)`. -/
def Batch.batchOp (b : Batch) (op : BakedOpState) : Batch :=
  { b with
    bounds := b.bounds.unionWith op.clippedBounds
    ops := b.ops ++ [op] }

/-- `MergingOpBatch::checkSide(currentFlags, newFlags, side, boundsDelta)`. -/
def Batch.checkSide (currentFlags newFlags side : ℕ) (boundsDelta : ℚ) : Bool :=
  let currentClipExists : Bool := currentFlags &&& side != 0
  let newClipExists : Bool := newFlags &&& side != 0
  if decide (0 < boundsDelta) && currentClipExists then false
  else if decide (boundsDelta < 0) && newClipExists then false
  else true

/-- `MergingOpBatch::paintIsDefault(paint)`. -/
def Batch.paintIsDefault (p : Paint) : Bool :=
  p.alpha == 255 && p.colorFilter == none && p.shader == none

/-- `MergingOpBatch::paintsAreEquivalent(a, b)`. -/
def Batch.paintsAreEquivalent (a b : Paint) : Bool :=
  a.alpha == b.alpha && a.colorFilter == b.colorFilter && a.shader == b.shader

/-- The paint-compatibility tail of `MergingOpBatch::canMergeWith`
(OpReorderer.cpp lines 173-184). -/
def Batch.paintsCompatible (newPaint oldPaint : Option Paint) : Bool :=
  if Paint.ptrEq newPaint oldPaint then true
  else
    match newPaint, oldPaint with
    | some np, none => Batch.paintIsDefault np
    | none, some op => Batch.paintIsDefault op
    | some np, some op => Batch.paintsAreEquivalent np op
    | none, none => true

/-- The clip-compatibility block of `MergingOpBatch::canMergeWith`
(OpReorderer.cpp lines 157-171); `true` when no side check fails. -/
def Batch.clipSidesCompatible (b : Batch) (op : BakedOpState) : Bool :=
  let currentFlags := b.clipSideFlags
  let newFlags := op.clipSideFlags
  let opBounds := op.clippedBounds
  Batch.checkSide currentFlags newFlags OpClipSideFlags.Left (b.bounds.left - opBounds.left) &&
  Batch.checkSide currentFlags newFlags OpClipSideFlags.Top (b.bounds.top - opBounds.top) &&
  Batch.checkSide currentFlags newFlags OpClipSideFlags.Right (opBounds.right - b.bounds.right) &&
  Batch.checkSide currentFlags newFlags OpClipSideFlags.Bottom (opBounds.bottom - b.bounds.bottom)

/-- `MergingOpBatch::canMergeWith(op)` (OpReorderer.cpp lines 132-185).
`mOps[0]` is the head of `ops`; batches are only ever constructed with one
op, so the list is never empty (the `none` case is unreachable). -/
def Batch.canMergeWith (b : Batch) (op : BakedOpState) : Bool :=
  let isTextBatch : Bool :=
    b.batchId == OpBatchType.Text || b.batchId == OpBatchType.ColorText
  if (!isTextBatch || PaintUtils.hasTextShadow op.paint) &&
      b.intersects op.clippedBounds then false
  else
    match b.ops.head? with
    | none => false
    | some rhs =>
      let lhs := op
      if !MathUtils.areEqual lhs.alpha rhs.alpha then false
      else if !(lhs.roundRectClipState == rhs.roundRectClipState) then false
      else if !(lhs.projectionPathMask == rhs.projectionPathMask) then false
      else if (b.clipSideFlags != OpClipSideFlags.None ||
               op.clipSideFlags != OpClipSideFlags.None) &&
              !(b.clipSidesCompatible op) then false
      else Batch.paintsCompatible op.paint rhs.paint

/-- `MergingOpBatch::mergeOp(op)` (OpReorderer.cpp lines 187-199). -/
def Batch.mergeOp (b : Batch) (op : BakedOpState) : Batch :=
  let newClipSideFlags := op.clipSideFlags
  let opClip := op.clipRect
  { b with
    bounds := b.bounds.unionWith op.clippedBounds
    ops := b.ops ++ [op]
    clipSideFlags := b.clipSideFlags ||| newClipSideFlags
    clipRect :=
      ⟨if newClipSideFlags &&& OpClipSideFlags.Left != 0 then opClip.left else b.clipRect.left,
       if newClipSideFlags &&& OpClipSideFlags.Top != 0 then opClip.top else b.clipRect.top,
       if newClipSideFlags &&& OpClipSideFlags.Right != 0 then opClip.right else b.clipRect.right,
       if newClipSideFlags &&& OpClipSideFlags.Bottom != 0 then opClip.bottom else b.clipRect.bottom⟩ }

/-! ## LayerReorderer batching state (OpReorderer.cpp lines 206-305) -/

/-- The per-layer batching state of `OpReorderer::LayerReorderer`:
`batches` is `mBatches` in draw order; `batchLookup` is `mBatchLookup`
(batch id → pointer to the latest unmerging batch, embedded as the batch
`key`); `mergingLookup` is `mMergingBatchLookup` (batch id → merge id →
open merging batch); `nextKey` is the allocator supplying fresh batch
identities. -/
structure LayerState where
  batches : List Batch
  batchLookup : ℕ → Option ℕ
  mergingLookup : ℕ → ℕ → Option ℕ
  nextKey : ℕ

def LayerState.empty : LayerState :=
  { batches := []
    batchLookup := fun _ => none
    mergingLookup := fun _ _ => none
    nextKey := 0 }

/-- The loop body of `LayerReorderer::locateInsertIndex` (OpReorderer.cpp
lines 216-237): iterate `i` from `batches.size() - 1` back toward 0
(the fuel argument is `i + 1`), breaking at the target batch, remembering
`i + 1` as insertion index after any same-id batch, and clearing the target
when an intersecting batch is found. Returns (targetBatch, insertBatchIndex). -/
def LayerState.locateLoop (batches : List Batch) (batchId : ℕ) (clippedBounds : Rect) :
    ℕ → Option ℕ → ℕ → Option ℕ × ℕ
  | 0, target, insertIdx => (target, insertIdx)
  | i + 1, target, insertIdx =>
    match batches[i]? with
    | none => (target, insertIdx)
    | some overBatch =>
      if target == some overBatch.key then (target, insertIdx)
      else
        let insertIdx' := if batchId == overBatch.batchId then i + 1 else insertIdx
        if batchId == overBatch.batchId && target == none then (target, insertIdx')
        else if overBatch.intersects clippedBounds then (none, insertIdx')
        else LayerState.locateLoop batches batchId clippedBounds i target insertIdx'

/-- `LayerReorderer::locateInsertIndex(batchId, clippedBounds, ...)`:
run the backward scan over the whole batch list, starting from
`insertBatchIndex = mBatches.size()`. -/
def LayerState.locateInsertIndex (st : LayerState) (batchId : ℕ) (clippedBounds : Rect)
    (target : Option ℕ) : Option ℕ × ℕ :=
  LayerState.locateLoop st.batches batchId clippedBounds st.batches.length target
    st.batches.length

/-- Replace the batch with identity `key` by `f` applied to it (the C++
code mutates the batch through its stable pointer). -/
def LayerState.updateBatch (st : LayerState) (key : ℕ) (f : Batch → Batch) : LayerState :=
  { st with batches := st.batches.map (fun b => if b.key == key then f b else b) }

/-- `LayerReorderer::deferUnmergeableOp(allocator, op, batchId)`
(OpReorderer.cpp lines 239-257). -/
def LayerState.deferUnmergeableOp (st : LayerState) (op : BakedOpState) (batchId : ℕ) :
    LayerState :=
  let target0 := st.batchLookup batchId
  let res :=
    match target0 with
    | some k => st.locateInsertIndex batchId op.clippedBounds (some k)
    | none => (none, st.batches.length)
  match res with
  | (some k, _) => st.updateBatch k (fun b => b.batchOp op)
  | (none, insertIdx) =>
    let nb := Batch.mkOpBatch st.nextKey batchId op
    { st with
      batches := st.batches.insertIdx insertIdx nb
      batchLookup := fun id => if id == batchId then some st.nextKey else st.batchLookup id
      nextKey := st.nextKey + 1 }

/-- `LayerReorderer::deferMergeableOp(allocator, op, batchId, mergeId)`
(OpReorderer.cpp lines 261-287). `std::map::insert` does not overwrite an
existing key, so the merging lookup is only extended when the (batchId,
mergeId) slot is still empty. -/
def LayerState.deferMergeableOp (st : LayerState) (op : BakedOpState) (batchId mergeId : ℕ) :
    LayerState :=
  let target0 : Option ℕ :=
    match st.mergingLookup batchId mergeId with
    | some k =>
      match st.batches.find? (fun b => b.key == k) with
      | some b => if b.canMergeWith op then some k else none
      | none => none
    | none => none
  match st.locateInsertIndex batchId op.clippedBounds target0 with
  | (some k, _) => st.updateBatch k (fun b => b.mergeOp op)
  | (none, insertIdx) =>
    let nb := Batch.mkMergingBatch st.nextKey batchId op
    { st with
      batches := st.batches.insertIdx insertIdx nb
      mergingLookup := fun bid mid =>
        if bid == batchId && mid == mergeId && (st.mergingLookup bid mid).isNone then
          some st.nextKey
        else st.mergingLookup bid mid
      nextKey := st.nextKey + 1 }

/-- `LayerReorderer::replayBakedOpsImpl(arg, receivers)` (OpReorderer.cpp
lines 289-297): dispatch every op of every batch, in batch-list order;
the dispatched ops are identified by their `opKey`. -/
def LayerState.replayBakedOpsImpl (st : LayerState) : List ℕ :=
  (st.batches.map (fun b => b.ops.map (fun op => op.opKey))).flatten

/-! ## Geometry lemmas -/

lemma Rect.intersects_comm (a b : Rect) : a.intersects b = b.intersects a := by
  unfold Rect.intersects
  rw [max_comm a.left, min_comm a.right, max_comm a.top, min_comm a.bottom]

lemma Rect.not_intersects_of_empty (a b : Rect) (h : a.isEmpty = true) :
    a.intersects b = false := by
  have h' : a.right ≤ a.left ∨ a.bottom ≤ a.top := by
    simpa [Rect.isEmpty, Bool.not_eq_true'] using h
  unfold Rect.intersects
  by_cases hp : max a.left b.left < min a.right b.right
  · have h1 : a.left < a.right :=
      lt_of_le_of_lt (le_max_left _ _) (lt_of_lt_of_le hp (min_le_left _ _))
    by_cases hq : max a.top b.top < min a.bottom b.bottom
    · have h2 : a.top < a.bottom :=
        lt_of_le_of_lt (le_max_left _ _) (lt_of_lt_of_le hq (min_le_left _ _))
      rcases h' with h' | h' <;> linarith
    · simp [hq]
  · simp [hp]

lemma Rect.intersects_mono_right (a b B : Rect) (hsub : b.insideOf B)
    (h : a.intersects b = true) : a.intersects B = true := by
  obtain ⟨h1, h2, h3, h4⟩ := hsub
  unfold Rect.intersects at h ⊢
  rw [Bool.and_eq_true, decide_eq_true_iff, decide_eq_true_iff] at h
  rw [Bool.and_eq_true, decide_eq_true_iff, decide_eq_true_iff]
  constructor
  · exact lt_of_le_of_lt (max_le_max le_rfl h1) (lt_of_lt_of_le h.1 (min_le_min le_rfl h3))
  · exact lt_of_le_of_lt (max_le_max le_rfl h2) (lt_of_lt_of_le h.2 (min_le_min le_rfl h4))

lemma Rect.insideOf_refl (a : Rect) : a.insideOf a :=
  ⟨le_rfl, le_rfl, le_rfl, le_rfl⟩

lemma Rect.insideOf_trans (a b c : Rect) (h1 : a.insideOf b) (h2 : b.insideOf c) :
    a.insideOf c :=
  ⟨le_trans h2.1 h1.1, le_trans h2.2.1 h1.2.1,
   le_trans h1.2.2.1 h2.2.2.1, le_trans h1.2.2.2 h2.2.2.2⟩

lemma Rect.nonempty_elim (a : Rect) (ha : a.isEmpty = false) :
    a.left < a.right ∧ a.top < a.bottom := by
  by_contra hc
  have hT : a.isEmpty = true := by
    unfold Rect.isEmpty
    rcases not_and_or.mp hc with h | h <;> simp [h]
  rw [hT] at ha
  exact absurd ha (by decide)

lemma Rect.nonempty_of_insideOf (a b : Rect) (h : a.insideOf b) (ha : a.isEmpty = false) :
    b.isEmpty = false := by
  have ha' := Rect.nonempty_elim a ha
  have hl : b.left < b.right :=
    lt_of_le_of_lt h.1 (lt_of_lt_of_le ha'.1 h.2.2.1)
  have ht : b.top < b.bottom :=
    lt_of_le_of_lt h.2.1 (lt_of_lt_of_le ha'.2 h.2.2.2)
  simp [Rect.isEmpty, hl, ht]

lemma Rect.insideOf_unionWith_left (a b : Rect) (ha : a.isEmpty = false) :
    a.insideOf (a.unionWith b) := by
  have ha' := Rect.nonempty_elim a ha
  unfold Rect.unionWith
  by_cases hb : b.left < b.right ∧ b.top < b.bottom
  · simp only [hb, if_true, ha', and_self, if_true]
    exact ⟨min_le_left _ _, min_le_left _ _, le_max_left _ _, le_max_left _ _⟩
  · simp only [hb, if_false]
    exact Rect.insideOf_refl a

lemma Rect.insideOf_unionWith_right (a b : Rect) (hb : b.isEmpty = false) :
    b.insideOf (a.unionWith b) := by
  have hb' := Rect.nonempty_elim b hb
  unfold Rect.unionWith
  simp only [hb', and_self, if_true]
  by_cases ha : a.left < a.right ∧ a.top < a.bottom
  · simp only [ha, and_self, if_true]
    exact ⟨min_le_right _ _, min_le_right _ _, le_max_right _ _, le_max_right _ _⟩
  · simp only [ha, if_false]
    exact Rect.insideOf_refl b

/-! ## Merging-batch invariants (claim C1 machinery) -/

/-- Every (non-degenerate) op in a batch stays inside the batch's running
`mBounds` union. -/
def Batch.BoundsInv (b : Batch) : Prop :=
  ∀ op ∈ b.ops, op.clippedBounds.isEmpty = false → op.clippedBounds.insideOf b.bounds

/-- The ops of a batch have pairwise non-intersecting clipped bounds. -/
def Batch.PairwiseDisjoint (b : Batch) : Prop :=
  b.ops.Pairwise (fun x y => x.clippedBounds.intersects y.clippedBounds = false)

/-- The merging batches that the engine can actually build: created by
`MergingOpBatch(batchId, op)` and extended by `mergeOp` only after
`canMergeWith` accepted the candidate (`deferMergeableOp`,
OpReorderer.cpp lines 261-287). -/
inductive Batch.MergedReach : Batch → Prop where
  | base (key batchId : ℕ) (op : BakedOpState) :
      Batch.MergedReach (Batch.mkMergingBatch key batchId op)
  | step (b : Batch) (op : BakedOpState) :
      Batch.MergedReach b → b.canMergeWith op = true → Batch.MergedReach (b.mergeOp op)

lemma Batch.boundsInv_mkBase (key batchId : ℕ) (op : BakedOpState) (m : Bool) :
    (Batch.mkBase key batchId op m).BoundsInv := by
  intro op' hmem hne
  simp only [Batch.mkBase, List.mem_singleton] at hmem
  subst hmem
  exact Rect.insideOf_refl _

lemma Batch.boundsInv_mergeOp (b : Batch) (op : BakedOpState) (h : b.BoundsInv) :
    (b.mergeOp op).BoundsInv := by
  intro op' hmem hne
  simp only [Batch.mergeOp, List.mem_append, List.mem_singleton] at hmem
  rcases hmem with hmem | hmem
  · have hin := h op' hmem hne
    have hbne : b.bounds.isEmpty = false := Rect.nonempty_of_insideOf _ _ hin hne
    exact Rect.insideOf_trans _ _ _ hin (Rect.insideOf_unionWith_left _ _ hbne)
  · subst hmem
    exact Rect.insideOf_unionWith_right _ _ hne

lemma Batch.mergedReach_boundsInv (b : Batch) (h : b.MergedReach) : b.BoundsInv := by
  induction h with
  | base key batchId op => exact Batch.boundsInv_mkBase key batchId op true
  | step b op _ _ ih => exact Batch.boundsInv_mergeOp b op ih

lemma Batch.not_intersects_each (b : Batch) (hinv : b.BoundsInv) (op : BakedOpState)
    (h : b.intersects op.clippedBounds = false) :
    ∀ op' ∈ b.ops, op'.clippedBounds.intersects op.clippedBounds = false := by
  intro op' hmem
  unfold Batch.intersects at h
  rw [Bool.and_eq_false_iff] at h
  by_contra hc
  have hc' : op'.clippedBounds.intersects op.clippedBounds = true := by
    cases hx : op'.clippedBounds.intersects op.clippedBounds with
    | false => exact absurd hx hc
    | true => rfl
  rcases h with h | h
  · -- `op.clippedBounds` does not even overlap mBounds
    by_cases hemp : op'.clippedBounds.isEmpty = true
    · rw [Rect.not_intersects_of_empty _ _ hemp] at hc'
      exact absurd hc' (by decide)
    · have hne : op'.clippedBounds.isEmpty = false := by
        cases hx : op'.clippedBounds.isEmpty with
        | false => rfl
        | true => exact absurd hx hemp
      have hin := hinv op' hmem hne
      have : op.clippedBounds.intersects b.bounds = true := by
        rw [Rect.intersects_comm] at hc'
        exact Rect.intersects_mono_right _ _ _ hin hc'
      rw [this] at h
      exact absurd h (by decide)
  · -- no individual op overlaps
    rw [List.any_eq_false] at h
    have := h op' hmem
    rw [Rect.intersects_comm] at hc'
    rw [hc'] at this
    exact this rfl

lemma Batch.canMergeWith_not_intersects (b : Batch) (op : BakedOpState)
    (hshadow : b.batchId = OpBatchType.Text ∨ b.batchId = OpBatchType.ColorText →
      PaintUtils.hasTextShadow op.paint = true)
    (h : b.canMergeWith op = true) :
    b.intersects op.clippedBounds = false := by
  by_contra hc
  have hc' : b.intersects op.clippedBounds = true := by
    cases hx : b.intersects op.clippedBounds with
    | false => exact absurd hx hc
    | true => rfl
  simp only [Batch.canMergeWith] at h
  have hcond :
      ((!(b.batchId == OpBatchType.Text || b.batchId == OpBatchType.ColorText)) ||
        PaintUtils.hasTextShadow op.paint) = true := by
    by_cases htext : b.batchId = OpBatchType.Text ∨ b.batchId = OpBatchType.ColorText
    · rw [hshadow htext]
      simp
    · push_neg at htext
      have h1 : (b.batchId == OpBatchType.Text) = false := by
        simp [htext.1]
      have h2 : (b.batchId == OpBatchType.ColorText) = false := by
        simp [htext.2]
      simp [h1, h2]
  rw [hcond, hc'] at h
  simp at h

/-- Claim C1 helper: extending a reached merging batch keeps the ops pairwise
disjoint when the batch id is not a text id. -/
lemma Batch.mergedReach_pairwiseDisjoint (b : Batch) (h : b.MergedReach)
    (h1 : b.batchId ≠ OpBatchType.Text) (h2 : b.batchId ≠ OpBatchType.ColorText) :
    b.PairwiseDisjoint := by
  induction h with
  | base key batchId op =>
    unfold Batch.PairwiseDisjoint Batch.mkMergingBatch Batch.mkBase
    simp
  | step b op hreach hmerge ih =>
    have hid : (b.mergeOp op).batchId = b.batchId := rfl
    rw [hid] at h1 h2
    have hprev : b.PairwiseDisjoint := ih h1 h2
    have hsh : b.batchId = OpBatchType.Text ∨ b.batchId = OpBatchType.ColorText →
        PaintUtils.hasTextShadow op.paint = true := by
      intro hx
      rcases hx with hx | hx
      · exact absurd hx h1
      · exact absurd hx h2
    have hni := Batch.canMergeWith_not_intersects b op hsh hmerge
    have heach := Batch.not_intersects_each b (Batch.mergedReach_boundsInv b hreach) op hni
    unfold Batch.PairwiseDisjoint at hprev ⊢
    unfold Batch.mergeOp
    simp only [List.pairwise_append, List.pairwise_cons, List.mem_singleton,
      List.Pairwise.nil, and_true, List.not_mem_nil, IsEmpty.forall_iff, implies_true]
    refine ⟨hprev, trivial, ?_⟩
    intro x hx y hy
    subst hy
    exact heach x hx

/-! ## Claim C1 -/

/-- C1: for every mergeable baked op offered to an open merging batch,
`canMergeWith` returns false whenever the op's clipped bounds intersect the
batch's accumulated bounds, except when the batch id is a text batch
(Text or ColorText) and the op's paint has no text shadow; consequently the
ops of any reachable merging batch with a non-text batch id have pairwise
non-intersecting clipped bounds, so two mergeable ops with intersecting
clipped bounds in a non-text batch never appear together in one
merged-batch dispatch. -/
theorem canMergeWith_overlap_rejection_and_merge_soundness :
    (∀ (b : Batch) (op : BakedOpState),
      (b.batchId = OpBatchType.Text ∨ b.batchId = OpBatchType.ColorText →
        PaintUtils.hasTextShadow op.paint = true) →
      b.intersects op.clippedBounds = true →
      b.canMergeWith op = false)
    ∧ (∀ b : Batch, b.MergedReach →
        b.batchId ≠ OpBatchType.Text → b.batchId ≠ OpBatchType.ColorText →
        b.PairwiseDisjoint) := by
  constructor
  · intro b op hsh hint
    cases hx : b.canMergeWith op with
    | false => rfl
    | true =>
      have hni := Batch.canMergeWith_not_intersects b op hsh hx
      rw [hint] at hni
      exact absurd hni (by decide)
  · intro b h h1 h2
    exact Batch.mergedReach_pairwiseDisjoint b h h1 h2

/-- Witness for C1 at concrete inputs: a Bitmap merging batch holding an op
with bounds (0,0,10,10) rejects a candidate with bounds (5,5,15,15), and a
reachable non-text merging batch is pairwise disjoint. -/
theorem canMergeWith_overlap_rejection_witness :
    ((Batch.mkMergingBatch 0 OpBatchType.Bitmap
        ⟨0, ⟨0, 0, 10, 10⟩, ⟨0, 0, 0, 0⟩, 0, 1, none, none, none⟩).intersects
       (⟨5, 5, 15, 15⟩ : Rect) = true ∧
     (Batch.mkMergingBatch 0 OpBatchType.Bitmap
        ⟨0, ⟨0, 0, 10, 10⟩, ⟨0, 0, 0, 0⟩, 0, 1, none, none, none⟩).canMergeWith
       ⟨1, ⟨5, 5, 15, 15⟩, ⟨0, 0, 0, 0⟩, 0, 1, none, none, none⟩ = false)
    ∧ (Batch.mkMergingBatch 3 OpBatchType.Vertices
        ⟨0, ⟨0, 0, 10, 10⟩, ⟨0, 0, 0, 0⟩, 0, 1, none, none, none⟩).PairwiseDisjoint :=
  ⟨⟨by decide,
    canMergeWith_overlap_rejection_and_merge_soundness.1 _ _ (by decide) (by decide)⟩,
   canMergeWith_overlap_rejection_and_merge_soundness.2 _
     (Batch.MergedReach.base 3 OpBatchType.Vertices _) (by decide) (by decide)⟩

/-! ## Claim C4 -/

/-- The per-side clip-compatibility failure condition, written from the
wording of the spec (§4.4 step 3): a side fails when the bounds delta on
that side is positive while the batch is clipped on it, or negative while
the candidate is clipped on it, the delta being batch-bound minus
candidate-bound for left/top and candidate-bound minus batch-bound for
right/bottom. For comparison with `Batch.checkSide` from the source. -/
def SpecClipSideFails (b : Batch) (op : BakedOpState) : Prop :=
  (0 < b.bounds.left - op.clippedBounds.left ∧
      b.clipSideFlags &&& OpClipSideFlags.Left ≠ 0) ∨
  (b.bounds.left - op.clippedBounds.left < 0 ∧
      op.clipSideFlags &&& OpClipSideFlags.Left ≠ 0) ∨
  (0 < b.bounds.top - op.clippedBounds.top ∧
      b.clipSideFlags &&& OpClipSideFlags.Top ≠ 0) ∨
  (b.bounds.top - op.clippedBounds.top < 0 ∧
      op.clipSideFlags &&& OpClipSideFlags.Top ≠ 0) ∨
  (0 < op.clippedBounds.right - b.bounds.right ∧
      b.clipSideFlags &&& OpClipSideFlags.Right ≠ 0) ∨
  (op.clippedBounds.right - b.bounds.right < 0 ∧
      op.clipSideFlags &&& OpClipSideFlags.Right ≠ 0) ∨
  (0 < op.clippedBounds.bottom - b.bounds.bottom ∧
      b.clipSideFlags &&& OpClipSideFlags.Bottom ≠ 0) ∨
  (op.clippedBounds.bottom - b.bounds.bottom < 0 ∧
      op.clipSideFlags &&& OpClipSideFlags.Bottom ≠ 0)

lemma Batch.checkSide_eq_false_iff (cf nf side : ℕ) (d : ℚ) :
    Batch.checkSide cf nf side d = false ↔
      (0 < d ∧ cf &&& side ≠ 0) ∨ (d < 0 ∧ nf &&& side ≠ 0) := by
  unfold Batch.checkSide
  by_cases h1 : 0 < d <;> by_cases h2 : cf &&& side ≠ 0 <;>
    by_cases h3 : d < 0 <;> by_cases h4 : nf &&& side ≠ 0 <;>
      simp [h1, h2, h3, h4] <;> linarith

lemma bool_and4_false (x y z w : Bool) :
    (x && y && z && w) = false ↔ x = false ∨ y = false ∨ z = false ∨ w = false := by
  cases x <;> cases y <;> cases z <;> cases w <;> simp

lemma Batch.clipSidesCompatible_eq_false_iff (b : Batch) (op : BakedOpState) :
    b.clipSidesCompatible op = false ↔ SpecClipSideFails b op := by
  simp only [Batch.clipSidesCompatible]
  rw [bool_and4_false, Batch.checkSide_eq_false_iff, Batch.checkSide_eq_false_iff,
    Batch.checkSide_eq_false_iff, Batch.checkSide_eq_false_iff]
  unfold SpecClipSideFails
  simp only [or_assoc]

lemma MathUtils.areEqual_self (a : ℚ) : MathUtils.areEqual a a = true := by
  unfold MathUtils.areEqual MathUtils.isZero
  rw [sub_self, abs_zero]
  decide

/-- C4: when either a merging batch or a candidate op has any clip-side flag
set, and all the other `canMergeWith` checks (overlap, alpha, round-rect
clip state, projection mask, paint compatibility) pass, `canMergeWith`
rejects the candidate if and only if some side fails the per-side check:
a side fails when the bounds delta on that side is positive while the batch
is clipped on it, or negative while the candidate is clipped on it, the
delta being batch-bound minus candidate-bound for left and top and
candidate-bound minus batch-bound for right and bottom. -/
theorem canMergeWith_clip_side_rejection (b : Batch) (op rhs : BakedOpState)
    (hhead : b.ops.head? = some rhs)
    (hoverlap : ((!(b.batchId == OpBatchType.Text || b.batchId == OpBatchType.ColorText) ||
        PaintUtils.hasTextShadow op.paint) && b.intersects op.clippedBounds) = false)
    (halpha : MathUtils.areEqual op.alpha rhs.alpha = true)
    (hrr : op.roundRectClipState = rhs.roundRectClipState)
    (hmask : op.projectionPathMask = rhs.projectionPathMask)
    (hpaint : Batch.paintsCompatible op.paint rhs.paint = true)
    (hflags : b.clipSideFlags ≠ OpClipSideFlags.None ∨ op.clipSideFlags ≠ OpClipSideFlags.None) :
    (b.canMergeWith op = false ↔ SpecClipSideFails b op) := by
  have hf : (b.clipSideFlags != OpClipSideFlags.None ||
      op.clipSideFlags != OpClipSideFlags.None) = true := by
    rcases hflags with hx | hx <;> simp [hx]
  simp only [Batch.canMergeWith, hoverlap, hhead, halpha, hrr, hmask, hf,
    Bool.false_eq_true, if_false, Bool.not_true, Bool.true_and]
  cases hcs : b.clipSidesCompatible op with
  | false =>
    have hfail := (Batch.clipSidesCompatible_eq_false_iff b op).mp hcs
    simp [hfail]
  | true =>
    have hnofail : ¬SpecClipSideFails b op := by
      intro hx
      have := (Batch.clipSidesCompatible_eq_false_iff b op).mpr hx
      rw [hcs] at this
      exact absurd this (by decide)
    simp [hpaint, hnofail]

/-- Witness for C4 at concrete inputs: a left-clipped Bitmap merging batch
with bounds (10,0,20,10) rejects an unclipped candidate with bounds
(0,0,10,10) exactly because the left side fails. -/
theorem canMergeWith_clip_side_rejection_witness :
    Batch.canMergeWith
      ⟨0, OpBatchType.Bitmap, ⟨10, 0, 20, 10⟩,
        [⟨0, ⟨10, 0, 20, 10⟩, ⟨10, 0, 100, 100⟩, OpClipSideFlags.Left, 1, none, none, none⟩],
        true, OpClipSideFlags.Left, ⟨10, 0, 100, 100⟩⟩
      ⟨2, ⟨0, 0, 10, 10⟩, ⟨0, 0, 0, 0⟩, 0, 1, none, none, none⟩ = false :=
  (canMergeWith_clip_side_rejection
      ⟨0, OpBatchType.Bitmap, ⟨10, 0, 20, 10⟩,
        [⟨0, ⟨10, 0, 20, 10⟩, ⟨10, 0, 100, 100⟩, OpClipSideFlags.Left, 1, none, none, none⟩],
        true, OpClipSideFlags.Left, ⟨10, 0, 100, 100⟩⟩
      ⟨2, ⟨0, 0, 10, 10⟩, ⟨0, 0, 0, 0⟩, 0, 1, none, none, none⟩
      ⟨0, ⟨10, 0, 20, 10⟩, ⟨10, 0, 100, 100⟩, OpClipSideFlags.Left, 1, none, none, none⟩
      rfl (by decide) (MathUtils.areEqual_self 1) rfl rfl
      (by decide) (Or.inl (by decide))).mpr
    (Or.inl ⟨by simp, by decide⟩)

/-! ## Claim C3: deferUnmergeableOp placement -/

lemma List.getElem?_some_lt {α : Type} (l : List α) (n : ℕ) (a : α)
    (h : l[n]? = some a) : n < l.length := by
  by_contra hc
  rw [List.getElem?_eq_none (Nat.le_of_not_lt hc)] at h
  cases h

/-- Backward scan: if the first relevant batch encountered (index `j`,
scanning down from the end) has a different batch id and intersects the
new op's bounds, the scan clears the target and keeps the insertion
index it was given. -/
lemma LayerState.locateLoop_none_of_blocker (l : List Batch) (bid k j : ℕ) (r : Rect)
    (bj : Batch) (hj : l[j]? = some bj) (hjid : bj.batchId ≠ bid) (hjk : bj.key ≠ k)
    (hjint : bj.intersects r = true) :
    ∀ fuel, j < fuel → fuel ≤ l.length →
    (∀ m, j < m → m < fuel → ∀ bm, l[m]? = some bm →
      bm.key ≠ k ∧ bm.batchId ≠ bid ∧ bm.intersects r = false) →
    ∀ idx, LayerState.locateLoop l bid r fuel (some k) idx = (none, idx) := by
  intro fuel
  induction fuel with
  | zero => intro h; exact absurd h (Nat.not_lt_zero j)
  | succ f ih =>
    intro hjf hfle hblock idx
    have hf : f < l.length := Nat.lt_of_succ_le hfle
    rcases Nat.lt_or_ge j f with hgt | hle
    · obtain ⟨bf, hbf⟩ : ∃ bf, l[f]? = some bf := ⟨l[f], List.getElem?_eq_getElem hf⟩
      obtain ⟨hk, hid, hint⟩ := hblock f hgt (Nat.lt_succ_self f) bf hbf
      rw [LayerState.locateLoop, hbf]
      have h1 : (some k == some bf.key) = false := by simp [Ne.symm hk]
      have h2 : (bid == bf.batchId) = false := by simp [Ne.symm hid]
      simp only [h1, h2, hint, Bool.false_and, Bool.false_eq_true, if_false]
      exact ih hgt (Nat.le_of_succ_le hfle)
        (fun m hm1 hm2 bm hbm => hblock m hm1 (Nat.lt_succ_of_lt hm2) bm hbm) idx
    · have hje : j = f := Nat.le_antisymm (Nat.lt_succ_iff.mp hjf) hle
      subst hje
      rw [LayerState.locateLoop, hj]
      have h1 : (some k == some bj.key) = false := by simp [Ne.symm hjk]
      have h2 : (bid == bj.batchId) = false := by simp [Ne.symm hjid]
      simp [h1, h2, hjint]

/-- Backward scan: if nothing above the target batch intersects the new
op's bounds, the scan reaches the target batch and keeps it. -/
lemma LayerState.locateLoop_reaches_target (l : List Batch) (bid k t : ℕ) (r : Rect)
    (bt : Batch) (ht : l[t]? = some bt) (hkey : bt.key = k) :
    ∀ fuel, t < fuel →
    (∀ m, t < m → m < fuel → ∀ bm, l[m]? = some bm →
      bm.key ≠ k ∧ bm.intersects r = false) →
    ∀ idx, ∃ idx', LayerState.locateLoop l bid r fuel (some k) idx = (some k, idx') := by
  intro fuel
  induction fuel with
  | zero => intro h; exact absurd h (Nat.not_lt_zero t)
  | succ f ih =>
    intro htf habove idx
    rcases Nat.lt_or_ge t f with hgt | hle
    · have hrestrict : ∀ m, t < m → m < f → ∀ bm, l[m]? = some bm →
          bm.key ≠ k ∧ bm.intersects r = false :=
        fun m hm1 hm2 bm hbm => habove m hm1 (Nat.lt_succ_of_lt hm2) bm hbm
      cases hbf : l[f]? with
      | none =>
        rw [LayerState.locateLoop, hbf]
        exact ⟨idx, rfl⟩
      | some bf =>
        obtain ⟨hk, hint⟩ := habove f hgt (Nat.lt_succ_self f) bf hbf
        have h1 : (some k == some bf.key) = false := by simp [Ne.symm hk]
        have h2 : (some k == (none : Option ℕ)) = false := rfl
        cases hbid : (bid == bf.batchId) with
        | true =>
          obtain ⟨idx', hidx'⟩ := ih hgt hrestrict (f + 1)
          refine ⟨idx', ?_⟩
          rw [LayerState.locateLoop, hbf]
          simp only [h1, h2, hbid, hint, Bool.true_and, Bool.false_eq_true, if_false,
            Bool.and_false, if_true]
          exact hidx'
        | false =>
          obtain ⟨idx', hidx'⟩ := ih hgt hrestrict idx
          refine ⟨idx', ?_⟩
          rw [LayerState.locateLoop, hbf]
          simp only [h1, h2, hbid, hint, Bool.false_and, Bool.false_eq_true, if_false,
            Bool.and_false]
          exact hidx'
    · have hje : t = f := Nat.le_antisymm (Nat.lt_succ_iff.mp htf) hle
      subst hje
      rw [LayerState.locateLoop, ht]
      have h1 : (some k == some bt.key) = true := by simp [hkey]
      simp [h1]

lemma List.map_keyUpdate_noop (l : List Batch) (k : ℕ) (f : Batch → Batch)
    (h : ∀ b ∈ l, b.key ≠ k) :
    l.map (fun b => if b.key == k then f b else b) = l := by
  induction l with
  | nil => rfl
  | cons x xs ih =>
    have hx : (x.key == k) = false := by simp [h x (List.mem_cons_self x xs)]
    simp only [List.map_cons, hx, Bool.false_eq_true, if_false, List.cons.injEq, true_and]
    exact ih (fun b hb => h b (List.mem_cons_of_mem x hb))

lemma List.map_keyUpdate_eq_set (l : List Batch) (t : ℕ) (bt : Batch) (k : ℕ)
    (f : Batch → Batch) :
    ∀ (ht : l[t]? = some bt) (hkey : bt.key = k)
      (huniq : ∀ m, m ≠ t → ∀ bm, l[m]? = some bm → bm.key ≠ k),
    l.map (fun b => if b.key == k then f b else b) = l.set t (f bt) := by
  induction l generalizing t with
  | nil => intro ht; cases ht
  | cons x xs ih =>
    intro ht hkey huniq
    cases t with
    | zero =>
      rw [List.getElem?_cons_zero] at ht
      injection ht with hx
      subst hx
      have hcond : (x.key == k) = true := by simp [hkey]
      simp only [List.map_cons, hcond, if_true, List.set_cons_zero, List.cons.injEq, true_and]
      refine List.map_keyUpdate_noop xs k f ?_
      intro b hb
      obtain ⟨n, hn⟩ := List.getElem?_of_mem hb
      exact huniq (n + 1) (Nat.succ_ne_zero n) b (by rw [List.getElem?_cons_succ]; exact hn)
    | succ t' =>
      rw [List.getElem?_cons_succ] at ht
      have hx : x.key ≠ k :=
        huniq 0 (Ne.symm (Nat.succ_ne_zero t')) x List.getElem?_cons_zero
      have hcond : (x.key == k) = false := by simp [hx]
      simp only [List.map_cons, hcond, Bool.false_eq_true, if_false, List.set_cons_succ,
        List.cons.injEq, true_and]
      refine ih t' ht hkey ?_
      intro m hm bm hbm
      exact huniq (m + 1) (by omega) bm (by rw [List.getElem?_cons_succ]; exact hbm)

/-- Run a sequence of (op, batchId) pairs through `deferUnmergeableOp`. -/
def LayerState.deferUnmergeableRun (st : LayerState) : List (BakedOpState × ℕ) → LayerState
  | [] => st
  | (op, bid) :: rest => LayerState.deferUnmergeableRun (st.deferUnmergeableOp op bid) rest

/-- A plain baked op for concrete runs: only opKey and clipped bounds matter
to unmergeable batching. -/
def plainOp (key : ℕ) (bounds : Rect) : BakedOpState :=
  ⟨key, bounds, ⟨0, 0, 0, 0⟩, 0, 1, none, none, none⟩

/-- The recording of FrameBuilderTests `simpleBatching`: five alternating
rect (tessellated → Vertices batch) and bitmap (alpha-8, non-mergeable →
Bitmap batch) draws, each loop translated down by 10; a bitmap overlaps the
rect of its own iteration but not the next rect. Rect op keys 0-4, bitmap
op keys 100-104, in recording order. -/
def simpleBatchingSchedule : List (BakedOpState × ℕ) :=
  [(plainOp 0 ⟨0, 10, 10, 20⟩, OpBatchType.Vertices),
   (plainOp 100 ⟨5, 10, 15, 20⟩, OpBatchType.Bitmap),
   (plainOp 1 ⟨0, 20, 10, 30⟩, OpBatchType.Vertices),
   (plainOp 101 ⟨5, 20, 15, 30⟩, OpBatchType.Bitmap),
   (plainOp 2 ⟨0, 30, 10, 40⟩, OpBatchType.Vertices),
   (plainOp 102 ⟨5, 30, 15, 40⟩, OpBatchType.Bitmap),
   (plainOp 3 ⟨0, 40, 10, 50⟩, OpBatchType.Vertices),
   (plainOp 103 ⟨5, 40, 15, 50⟩, OpBatchType.Bitmap),
   (plainOp 4 ⟨0, 50, 10, 60⟩, OpBatchType.Vertices),
   (plainOp 104 ⟨5, 50, 15, 60⟩, OpBatchType.Bitmap)]

/-- C3: `deferUnmergeableOp` placement. (i) When the backward scan from the
end of the batch list first meets an intervening batch of a different id
whose ops intersect the new op's clipped bounds (before reaching the
looked-up same-id batch), the op goes into a brand-new batch appended at
the end of the list. (ii) When no batch drawn after the looked-up same-id
batch intersects the new op, the op is appended to that existing batch.
(iii) Replaying five alternating non-overlapping rect and non-mergeable
bitmap draws emits all five rects before all five bitmaps. -/
theorem deferUnmergeableOp_placement :
    (∀ (st : LayerState) (op : BakedOpState) (batchId k j : ℕ) (bj : Batch),
      st.batchLookup batchId = some k →
      st.batches[j]? = some bj →
      bj.batchId ≠ batchId → bj.key ≠ k → bj.intersects op.clippedBounds = true →
      (∀ m, j < m → ∀ bm, st.batches[m]? = some bm →
        bm.key ≠ k ∧ bm.batchId ≠ batchId ∧ bm.intersects op.clippedBounds = false) →
      (st.deferUnmergeableOp op batchId).batches =
        st.batches ++ [Batch.mkOpBatch st.nextKey batchId op])
    ∧ (∀ (st : LayerState) (op : BakedOpState) (batchId k t : ℕ) (bt : Batch),
      st.batchLookup batchId = some k →
      st.batches[t]? = some bt → bt.key = k →
      (∀ m, m ≠ t → ∀ bm, st.batches[m]? = some bm → bm.key ≠ k) →
      (∀ m, t < m → ∀ bm, st.batches[m]? = some bm →
        bm.intersects op.clippedBounds = false) →
      (st.deferUnmergeableOp op batchId).batches = st.batches.set t (bt.batchOp op))
    ∧ (LayerState.deferUnmergeableRun LayerState.empty
        simpleBatchingSchedule).replayBakedOpsImpl =
        [0, 1, 2, 3, 4, 100, 101, 102, 103, 104] := by
  refine ⟨?_, ?_, by decide⟩
  · intro st op batchId k j bj hlookup hj hjid hjk hjint hblock
    have hloc := LayerState.locateLoop_none_of_blocker st.batches batchId k j
      op.clippedBounds bj hj hjid hjk hjint st.batches.length
      (List.getElem?_some_lt _ _ _ hj) (le_refl _)
      (fun m hm1 _ bm hbm => hblock m hm1 bm hbm) st.batches.length
    simp only [LayerState.deferUnmergeableOp, LayerState.locateInsertIndex, hlookup, hloc]
    exact List.insertIdx_length_self st.batches (Batch.mkOpBatch st.nextKey batchId op)
  · intro st op batchId k t bt hlookup ht hkey huniq habove
    obtain ⟨idx', hloc⟩ := LayerState.locateLoop_reaches_target st.batches batchId k t
      op.clippedBounds bt ht hkey st.batches.length
      (List.getElem?_some_lt _ _ _ ht)
      (fun m hm1 _ bm hbm => ⟨huniq m (by omega) bm hbm, habove m hm1 bm hbm⟩)
      st.batches.length
    simp only [LayerState.deferUnmergeableOp, LayerState.locateInsertIndex, hlookup, hloc,
      LayerState.updateBatch]
    exact List.map_keyUpdate_eq_set st.batches t bt k (fun b => b.batchOp op) ht hkey huniq

/-- Witness for C3: a Vertices op whose bounds intersect the later Bitmap
batch cannot rejoin the earlier Vertices batch and is appended at the end. -/
theorem deferUnmergeableOp_placement_witness :
    (LayerState.deferUnmergeableOp
      { batches := [⟨0, OpBatchType.Vertices, ⟨0, 0, 10, 10⟩,
                      [plainOp 50 ⟨0, 0, 10, 10⟩], false, 0, ⟨0, 0, 0, 0⟩⟩,
                    ⟨1, OpBatchType.Bitmap, ⟨20, 0, 30, 10⟩,
                      [plainOp 60 ⟨20, 0, 30, 10⟩], false, 0, ⟨0, 0, 0, 0⟩⟩]
        batchLookup := fun id =>
          if id == OpBatchType.Vertices then some 0
          else if id == OpBatchType.Bitmap then some 1 else none
        mergingLookup := fun _ _ => none
        nextKey := 2 }
      (plainOp 7 ⟨25, 0, 35, 10⟩) OpBatchType.Vertices).batches =
    [⟨0, OpBatchType.Vertices, ⟨0, 0, 10, 10⟩,
        [plainOp 50 ⟨0, 0, 10, 10⟩], false, 0, ⟨0, 0, 0, 0⟩⟩,
     ⟨1, OpBatchType.Bitmap, ⟨20, 0, 30, 10⟩,
        [plainOp 60 ⟨20, 0, 30, 10⟩], false, 0, ⟨0, 0, 0, 0⟩⟩] ++
      [Batch.mkOpBatch 2 OpBatchType.Vertices (plainOp 7 ⟨25, 0, 35, 10⟩)] :=
  deferUnmergeableOp_placement.1 _ (plainOp 7 ⟨25, 0, 35, 10⟩) OpBatchType.Vertices 0 1
    ⟨1, OpBatchType.Bitmap, ⟨20, 0, 30, 10⟩,
      [plainOp 60 ⟨20, 0, 30, 10⟩], false, 0, ⟨0, 0, 0, 0⟩⟩
    rfl rfl (by decide) (by decide) (by decide)
    (fun m hm bm hbm => by
      rw [List.getElem?_eq_none hm] at hbm
      cases hbm)

/-! ## Replay of completed layers (FrameBuilder.h replayBakedOps, lines 86-143) -/

/-- A completed per-layer builder as consumed by `replayBakedOps`
(`FrameBuilder::mLayerBuilders` entries): width/height, repaint rect,
offscreen buffer handle, optional render-node back-reference
(`LayerBuilder::renderNode`, set for persistent hardware layers), and the
layer's batching state. -/
structure LayerBuilderT where
  width : ℕ
  height : ℕ
  repaintRect : Rect
  offscreenBuffer : Option ℕ
  renderNode : Option ℕ
  state : LayerState

/-- Modelled from the spec: `LayerBuilder::empty()` (`LayerBuilder.h` not
under src/) — whether the layer accumulated no batches ("save layer - skip
entire layer if empty", FrameBuilder.h line 127). -/
def LayerBuilderT.empty (l : LayerBuilderT) : Bool :=
  l.state.batches.isEmpty

/-- The renderer lifecycle and dispatch calls issued by `replayBakedOps`
(the `Renderer` contract of FrameBuilder.h / BakedOpRenderer.h). -/
inductive ReplayEvent where
  | startRepaintLayer (offscreenBuffer : Option ℕ) (repaintRect : Rect)
  | startTemporaryLayer (width height : ℕ)
  | endLayer
  | startFrame (width height : ℕ) (repaintRect : Rect)
  | endFrame (repaintRect : Rect)
  | op (opKey : ℕ)
deriving DecidableEq, Repr

/-- The events one non-root layer contributes to a replay
(FrameBuilder.h lines 117-134): a cached hardware layer (renderNode set)
is always bracketed by startRepaintLayer/endLayer, even when empty; a
temporary save-layer is skipped entirely when empty, otherwise bracketed
by startTemporaryLayer/endLayer. -/
def LayerBuilderT.replayEvents (l : LayerBuilderT) : List ReplayEvent :=
  match l.renderNode with
  | some _ =>
    ReplayEvent.startRepaintLayer l.offscreenBuffer l.repaintRect ::
      ((l.state.replayBakedOpsImpl.map ReplayEvent.op) ++ [ReplayEvent.endLayer])
  | none =>
    if l.empty then []
    else
      ReplayEvent.startTemporaryLayer l.width l.height ::
        ((l.state.replayBakedOpsImpl.map ReplayEvent.op) ++ [ReplayEvent.endLayer])

/-- `FrameBuilder::replayBakedOps(renderer)` (FrameBuilder.h lines 86-143):
non-root layers are visited from the end of `mLayerBuilders` down to
index 1, then the root layer (index 0) is replayed between
startFrame and endFrame. -/
def replayBakedOps (layers : List LayerBuilderT) : List ReplayEvent :=
  match layers with
  | [] => []
  | fbo0 :: rest =>
    (rest.reverse.map LayerBuilderT.replayEvents).flatten ++
      (ReplayEvent.startFrame fbo0.width fbo0.height fbo0.repaintRect ::
        ((fbo0.state.replayBakedOpsImpl.map ReplayEvent.op) ++
          [ReplayEvent.endFrame fbo0.repaintRect]))

/-! ## Claim C5 -/

/-- C5: `replayBakedOps` iterates the non-root layers in reverse creation
order — the events of the last-created layer come first, before everything
of the shorter frame —, a replayed non-root layer is one begin call, its
batches' ops in batch-list order, then endLayer, and the root layer is
replayed last, bracketed by startFrame(width, height, repaintRect) and
endFrame(repaintRect) at the very end of the event stream. -/
theorem replayBakedOps_reverse_order :
    (∀ (fbo0 : LayerBuilderT) (rest : List LayerBuilderT) (l : LayerBuilderT),
      replayBakedOps (fbo0 :: (rest ++ [l])) =
        l.replayEvents ++ replayBakedOps (fbo0 :: rest))
    ∧ (∀ l : LayerBuilderT, l.renderNode = none → l.empty = false →
      l.replayEvents =
        ReplayEvent.startTemporaryLayer l.width l.height ::
          ((l.state.replayBakedOpsImpl.map ReplayEvent.op) ++ [ReplayEvent.endLayer]))
    ∧ (∀ (fbo0 : LayerBuilderT) (rest : List LayerBuilderT),
      ∃ pre, replayBakedOps (fbo0 :: rest) =
        pre ++ (ReplayEvent.startFrame fbo0.width fbo0.height fbo0.repaintRect ::
          ((fbo0.state.replayBakedOpsImpl.map ReplayEvent.op) ++
            [ReplayEvent.endFrame fbo0.repaintRect]))) := by
  refine ⟨?_, ?_, ?_⟩
  · intro fbo0 rest l
    simp only [replayBakedOps, List.reverse_append, List.reverse_cons, List.reverse_nil,
      List.nil_append, List.cons_append, List.map_cons, List.flatten_cons, List.append_assoc]
  · intro l hrn hne
    simp only [LayerBuilderT.replayEvents, hrn, hne, Bool.false_eq_true, if_false]
  · intro fbo0 rest
    exact ⟨(rest.reverse.map LayerBuilderT.replayEvents).flatten, rfl⟩

/-- Witness for C5 on a two-layer frame: the later-created layer's events
precede, and the root is bracketed by startFrame/endFrame. -/
theorem replayBakedOps_reverse_order_witness :
    (replayBakedOps
        [⟨100, 200, ⟨0, 0, 100, 200⟩, none, none, LayerState.empty⟩,
         ⟨40, 40, ⟨0, 0, 40, 40⟩, some 9, some 1, LayerState.empty⟩] =
      LayerBuilderT.replayEvents ⟨40, 40, ⟨0, 0, 40, 40⟩, some 9, some 1, LayerState.empty⟩ ++
        replayBakedOps [⟨100, 200, ⟨0, 0, 100, 200⟩, none, none, LayerState.empty⟩])
    ∧ LayerBuilderT.replayEvents
        ⟨40, 40, ⟨0, 0, 40, 40⟩, none, none,
          { LayerState.empty with
              batches := [Batch.mkOpBatch 0 OpBatchType.Vertices (plainOp 5 ⟨0, 0, 10, 10⟩)] }⟩ =
        ReplayEvent.startTemporaryLayer 40 40 ::
          ([ReplayEvent.op 5] ++ [ReplayEvent.endLayer]) :=
  ⟨replayBakedOps_reverse_order.1
      ⟨100, 200, ⟨0, 0, 100, 200⟩, none, none, LayerState.empty⟩ []
      ⟨40, 40, ⟨0, 0, 40, 40⟩, some 9, some 1, LayerState.empty⟩,
   replayBakedOps_reverse_order.2.1
      ⟨40, 40, ⟨0, 0, 40, 40⟩, none, none,
        { LayerState.empty with
            batches := [Batch.mkOpBatch 0 OpBatchType.Vertices (plainOp 5 ⟨0, 0, 10, 10⟩)] }⟩
      rfl (by decide)⟩

/-! ## Claim C10 -/

/-- C10: a layer holding a render-node back-reference (persistent hardware
layer repaint) always receives its startRepaintLayer / replay / endLayer
calls even with no batches, whereas a temporary save-layer with no batches
is skipped entirely: it emits no events at all. -/
theorem replay_repaint_layer_vs_empty_temporary :
    (∀ l : LayerBuilderT, ∀ rn, l.renderNode = some rn →
      l.replayEvents =
        ReplayEvent.startRepaintLayer l.offscreenBuffer l.repaintRect ::
          ((l.state.replayBakedOpsImpl.map ReplayEvent.op) ++ [ReplayEvent.endLayer]))
    ∧ (∀ l : LayerBuilderT, l.renderNode = none → l.empty = true →
      l.replayEvents = []) := by
  constructor
  · intro l rn hrn
    simp only [LayerBuilderT.replayEvents, hrn]
  · intro l hrn hempty
    simp only [LayerBuilderT.replayEvents, hrn, hempty, if_true]

/-- Witness for C10: an empty hardware layer still emits its bracketing
calls; an empty temporary layer emits nothing. -/
theorem replay_repaint_layer_vs_empty_temporary_witness :
    (LayerBuilderT.replayEvents ⟨64, 64, ⟨0, 0, 64, 64⟩, some 12, some 3, LayerState.empty⟩ =
      [ReplayEvent.startRepaintLayer (some 12) ⟨0, 0, 64, 64⟩, ReplayEvent.endLayer])
    ∧ LayerBuilderT.replayEvents ⟨64, 64, ⟨0, 0, 64, 64⟩, none, none, LayerState.empty⟩ = [] :=
  ⟨replay_repaint_layer_vs_empty_temporary.1
      ⟨64, 64, ⟨0, 0, 64, 64⟩, some 12, some 3, LayerState.empty⟩ 3 rfl,
   replay_repaint_layer_vs_empty_temporary.2
      ⟨64, 64, ⟨0, 0, 64, 64⟩, none, none, LayerState.empty⟩ rfl rfl⟩

/-! ## Transforms and canvas snapshots -/

/-- Modelled from the spec: the transform `Matrix4` (`Matrix.h` not under
src/), restricted to its 2D affine part per spec §4.2 ("conservatively,
ignoring non-affine transform components for the bounds estimate").
Skia-style naming: x' = a*x + c*y + tx, y' = b*x + d*y + ty. -/
structure Mat where
  a : ℚ
  b : ℚ
  c : ℚ
  d : ℚ
  tx : ℚ
  ty : ℚ
deriving DecidableEq, Repr

def Mat.identity : Mat := ⟨1, 0, 0, 1, 0, 0⟩

def Mat.loadTranslate (x y : ℚ) : Mat := ⟨1, 0, 0, 1, x, y⟩

def Mat.mapPointX (m : Mat) (x y : ℚ) : ℚ := m.a * x + m.c * y + m.tx

def Mat.mapPointY (m : Mat) (x y : ℚ) : ℚ := m.b * x + m.d * y + m.ty

/-- `Matrix4::mapRect`: the bounding box of the four mapped corners. -/
def Mat.mapRect (m : Mat) (r : Rect) : Rect :=
  let x1 := m.mapPointX r.left r.top
  let x2 := m.mapPointX r.right r.top
  let x3 := m.mapPointX r.left r.bottom
  let x4 := m.mapPointX r.right r.bottom
  let y1 := m.mapPointY r.left r.top
  let y2 := m.mapPointY r.right r.top
  let y3 := m.mapPointY r.left r.bottom
  let y4 := m.mapPointY r.right r.bottom
  ⟨min (min x1 x2) (min x3 x4), min (min y1 y2) (min y3 y4),
   max (max x1 x2) (max x3 x4), max (max y1 y2) (max y3 y4)⟩

def Mat.det (m : Mat) : ℚ := m.a * m.d - m.b * m.c

/-- `Matrix4::loadInverse` on the affine part (junk result for a singular
input, where the C++ float division would produce non-finite values). -/
def Mat.loadInverse (m : Mat) : Mat :=
  if m.det = 0 then ⟨0, 0, 0, 0, 0, 0⟩
  else
    ⟨m.d / m.det, -m.b / m.det, -m.c / m.det, m.a / m.det,
     (m.c * m.ty - m.d * m.tx) / m.det, (m.b * m.tx - m.a * m.ty) / m.det⟩

/-- Composition: apply `n` first, then `m` (`concatMatrix`). -/
def Mat.multiply (m n : Mat) : Mat :=
  ⟨m.a * n.a + m.c * n.b, m.b * n.a + m.d * n.b,
   m.a * n.c + m.c * n.d, m.b * n.c + m.d * n.d,
   m.a * n.tx + m.c * n.ty + m.tx, m.b * n.tx + m.d * n.ty + m.ty⟩

/- Modelled from the spec: Snapshot flags (Snapshot.h not under src/);
only their identities matter. -/
namespace SnapshotFlags

def kFlagIsFboLayer : ℕ := 1

def kFlagFboTarget : ℕ := 2

end SnapshotFlags

/-- Modelled from the spec: a canvas `Snapshot` (`Snapshot.h` not under
src/; spec §3 "Canvas Snapshot"): transform, clip (kept as its rectangle
form — the only form the claims exercise), viewport, layer flags, and the
round-rect clip state pointer. `clip` plays the role of
`getRenderTargetClip()`. -/
structure Snapshot where
  transform : Mat
  clip : Rect
  viewportWidth : ℚ
  viewportHeight : ℚ
  flags : ℕ
  roundRectClipState : Option ℕ
deriving DecidableEq, Repr

instance : Inhabited Snapshot :=
  ⟨⟨Mat.identity, ⟨0, 0, 0, 0⟩, 0, 0, 0, none⟩⟩

/-- `initializeSaveStack(w, h, clipL, clipT, clipR, clipB, _)`: the base
snapshot of a recording or deferral pass. -/
def Snapshot.initial (w h : ℚ) (clip : Rect) : Snapshot :=
  ⟨Mat.identity, clip, w, h, 0, none⟩

/-- Modelled from the spec: `BakedOpState::tryConstruct`
(`BakedOpState.h/.cpp` not under src/; spec §3 "BakedOpState" and §4.3
"resolve current snapshot + op into a BakedOpState (rejecting if degenerate
or fully clipped — returns no-op)"): compose the recorded local transform
with the snapshot transform, intersect the mapped bounds with the
render-target clip (itself narrowed by the recorded clip), reject when the
clipped bounds are empty, and record per-side clip flags. -/
def tryBakeOpState (s : Snapshot) (opKey : ℕ) (unmappedBounds : Rect) (localMatrix : Mat)
    (localClipRect : Rect) (paint : Option Paint) : Option BakedOpState :=
  let tm := s.transform.multiply localMatrix
  let mapped := tm.mapRect unmappedBounds
  let clipRect := s.clip.doIntersect (s.transform.mapRect localClipRect)
  let clipped := mapped.doIntersect clipRect
  if clipped.isEmpty then none
  else
    some ⟨opKey, clipped, clipRect,
      ((if mapped.left < clipRect.left then OpClipSideFlags.Left else 0) |||
       (if mapped.top < clipRect.top then OpClipSideFlags.Top else 0) |||
       (if clipRect.right < mapped.right then OpClipSideFlags.Right else 0) |||
       (if clipRect.bottom < mapped.bottom then OpClipSideFlags.Bottom else 0)),
      1, s.roundRectClipState, none, paint⟩

lemma Rect.doIntersect_isEmpty_right (x c : Rect) (h : c.isEmpty = true) :
    (x.doIntersect c).isEmpty = true := by
  have h' : c.right ≤ c.left ∨ c.bottom ≤ c.top := by
    simpa [Rect.isEmpty, Bool.not_eq_true'] using h
  unfold Rect.doIntersect Rect.isEmpty
  rcases h' with h' | h'
  · have : min x.right c.right ≤ max x.left c.left :=
      le_trans (min_le_right _ _) (le_trans h' (le_max_right _ _))
    simp [not_lt_of_le this]
  · have : min x.bottom c.bottom ≤ max x.top c.top :=
      le_trans (min_le_right _ _) (le_trans h' (le_max_right _ _))
    simp [not_lt_of_le this]

/-- Under an empty (all-zero) snapshot clip, every op is rejected at
deferral: the quick-reject in `tryBakeOpState` returns none. -/
lemma tryBakeOpState_none_of_zero_clip (s : Snapshot) (opKey : ℕ) (ub : Rect) (lm : Mat)
    (lc : Rect) (p : Option Paint) (h : s.clip = ⟨0, 0, 0, 0⟩) :
    tryBakeOpState s opKey ub lm lc p = none := by
  unfold tryBakeOpState
  have hclip : (s.clip.doIntersect (s.transform.mapRect lc)).isEmpty = true := by
    have : s.clip.isEmpty = true := by rw [h]; decide
    have h2 : ((s.transform.mapRect lc).doIntersect s.clip).isEmpty = true :=
      Rect.doIntersect_isEmpty_right _ _ this
    unfold Rect.doIntersect Rect.isEmpty at h2 ⊢
    simpa [max_comm, min_comm] using h2
  have hempty : ((s.transform.multiply lm).mapRect ub |>.doIntersect
      (s.clip.doIntersect (s.transform.mapRect lc))).isEmpty = true :=
    Rect.doIntersect_isEmpty_right _ _ hclip
  simp only [hempty, if_true]

/-! ## Recording: display list, chunks, addOp, saveLayer
(RecordingCanvas.cpp, RecordedOp.h) -/

/-- The recorded op variants of `RecordedOp.h` (MAP_OPS order), with the
BASE_PARAMS payload (unmapped bounds, recording-local matrix, recording
clip, paint) kept where a claim consumes it and type-specific payloads
reduced to identity tokens. -/
inductive ROp where
  | BitmapOp (unmappedBounds : Rect) (localMatrix : Mat) (localClipRect : Rect)
      (paint : Option Paint) (bitmap : ℕ)
  | RectOp (unmappedBounds : Rect) (localMatrix : Mat) (localClipRect : Rect)
      (paint : Option Paint)
  | RenderNodeOp (unmappedBounds : Rect) (localMatrix : Mat) (localClipRect : Rect)
      (renderNode : ℕ)
  | SimpleRectsOp (unmappedBounds : Rect) (localMatrix : Mat) (localClipRect : Rect)
      (paint : Option Paint)
  | BeginLayerOp (unmappedBounds : Rect) (localMatrix : Mat) (localClipRect : Rect)
      (paint : Option Paint)
  | EndLayerOp
  | LayerOp (unmappedBounds : Rect) (localMatrix : Mat) (localClipRect : Rect)
      (layerHandle : ℕ)
deriving DecidableEq, Repr

def ROp.isBeginLayerOp : ROp → Bool
  | ROp.BeginLayerOp _ _ _ _ => true
  | _ => false

/-- Modelled from the spec: a `DisplayList::Chunk` (`DisplayList.h` not
under src/), as populated by `RecordingCanvas::addOp` /
`drawRenderNode` and consumed by `OpReorderer::deferImpl`: a contiguous op
range, a child range, and the reorder-eligibility flag. -/
structure Chunk where
  beginOpIndex : ℕ
  endOpIndex : ℕ
  beginChildIndex : ℕ
  endChildIndex : ℕ
  reorderChildren : Bool
deriving DecidableEq, Repr

/-- Modelled from the spec: the `DisplayList` storage (`DisplayList.h` not
under src/; spec §3 "Display List"): ordered ops, child references, and
chunks. -/
structure DisplayListT where
  ops : List ROp
  children : List ℕ
  chunks : List Chunk
deriving DecidableEq, Repr

def DisplayListT.empty : DisplayListT := ⟨[], [], []⟩

/-- `DeferredBarrierType` (used by RecordingCanvas.cpp lines 43, 459-469). -/
inductive BarrierType where
  | none
  | inOrder
  | outOfOrder
deriving DecidableEq, Repr

/-- The recording state: the canvas-state snapshot stack (top = current),
the display list being built, and the pending reorder-barrier state. -/
structure RecCanvas where
  snapshots : List Snapshot
  dl : DisplayListT
  barrierType : BarrierType
deriving Repr

/-- `RecordingCanvas::reset(width, height)` (RecordingCanvas.cpp lines
36-46): fresh display list, base snapshot over the full viewport, barrier
state InOrder. -/
def RecCanvas.reset (w h : ℚ) : RecCanvas :=
  ⟨[Snapshot.initial w h ⟨0, 0, w, h⟩], DisplayListT.empty, BarrierType.inOrder⟩

def RecCanvas.currentSnapshot (c : RecCanvas) : Snapshot := c.snapshots.headI

/-- Update the last chunk's `endOpIndex` (the `mDisplayList->chunks.back()`
mutation of the addOp else-branch). -/
def Chunk.setLastEnd : List Chunk → ℕ → List Chunk
  | [], _ => []
  | [c], e => [{ c with endOpIndex := e }]
  | c :: rest, e => c :: Chunk.setLastEnd rest e

/-- `RecordingCanvas::addOp(op)` (RecordingCanvas.cpp lines 455-475):
append the op; open a new chunk exactly when a barrier is pending,
recording reorder-eligibility from the barrier kind, else extend the last
chunk. -/
def RecCanvas.addOp (c : RecCanvas) (op : ROp) : RecCanvas :=
  let insertIndex := c.dl.ops.length
  if c.barrierType ≠ BarrierType.none then
    let newChunk : Chunk :=
      { beginOpIndex := insertIndex
        endOpIndex := insertIndex + 1
        beginChildIndex := c.dl.children.length
        endChildIndex := c.dl.children.length
        reorderChildren := c.barrierType == BarrierType.outOfOrder }
    { c with
      dl := { c.dl with ops := c.dl.ops ++ [op], chunks := c.dl.chunks ++ [newChunk] }
      barrierType := BarrierType.none }
  else
    { c with
      dl := { c.dl with
        ops := c.dl.ops ++ [op]
        chunks := Chunk.setLastEnd c.dl.chunks (insertIndex + 1) } }

/-- Modelled from the spec: `RecordingCanvas::insertReorderBarrier`
(declared in `RecordingCanvas.h`, not under src/): set the pending barrier
state to OutOfOrder or InOrder ("chunks are created whenever a
reorder-barrier toggle changes state", spec §3; behaviour pinned by
unit_tests/RecordingCanvasTests.cpp `insertReorderBarrier`). -/
def RecCanvas.insertReorderBarrier (c : RecCanvas) (enableReorder : Bool) : RecCanvas :=
  { c with
    barrierType := if enableReorder then BarrierType.outOfOrder else BarrierType.inOrder }

/-- The `layerBounds` computation of `RecordingCanvas::saveLayer`
(RecordingCanvas.cpp lines 126-150): map the requested bounds through the
current transform, clip against the render-target clip, snap to pixel
boundaries, clip against the previous viewport, map back into layer space
with the inverse transform, and intersect with the requested bounds. -/
def RecCanvas.saveLayerBounds (c : RecCanvas) (left top right bottom : ℚ) : Rect :=
  let previous := c.currentSnapshot
  let untransformedBounds : Rect := ⟨left, top, right, bottom⟩
  let visibleBounds0 := previous.transform.mapRect untransformedBounds
  let visibleBounds1 := visibleBounds0.doIntersect previous.clip
  let visibleBounds2 := visibleBounds1.snapToPixelBoundaries
  let previousViewport : Rect := ⟨0, 0, previous.viewportWidth, previous.viewportHeight⟩
  let visibleBounds := visibleBounds2.doIntersect previousViewport
  let inverse := previous.transform.loadInverse
  let layerBounds0 := inverse.mapRect visibleBounds
  layerBounds0.doIntersect untransformedBounds

/-- `RecordingCanvas::saveLayer(left, top, right, bottom, paint, flags)`
(RecordingCanvas.cpp lines 111-173), on the only supported (kClipToLayer)
path: reject (push a snapshot whose clip is reset to 0,0,0,0 and record
nothing) when the computed layer bounds or the requested bounds are empty;
otherwise push the FBO-layer snapshot and record one BeginLayerOp capturing
the previous transform, previous render-target clip, and the paint. -/
def RecCanvas.saveLayer (c : RecCanvas) (left top right bottom : ℚ)
    (paint : Option Paint) : RecCanvas :=
  let previous := c.currentSnapshot
  let untransformedBounds : Rect := ⟨left, top, right, bottom⟩
  let layerBounds := c.saveLayerBounds left top right bottom
  if layerBounds.isEmpty || untransformedBounds.isEmpty then
    let snapshot := { previous with clip := ⟨0, 0, 0, 0⟩ }
    { c with snapshots := snapshot :: c.snapshots }
  else
    let snapshot : Snapshot :=
      { previous with
        flags := previous.flags ||| (SnapshotFlags.kFlagFboTarget |||
          SnapshotFlags.kFlagIsFboLayer)
        viewportWidth := untransformedBounds.getWidth
        viewportHeight := untransformedBounds.getHeight
        transform := Mat.loadTranslate (-untransformedBounds.left) (-untransformedBounds.top)
        clip := (layerBounds.translate (-untransformedBounds.left) (-untransformedBounds.top))
        roundRectClipState := none }
    let c' : RecCanvas := { c with snapshots := snapshot :: c.snapshots }
    c'.addOp (ROp.BeginLayerOp ⟨left, top, right, bottom⟩ previous.transform previous.clip paint)

/-! ## Claim C6 -/

lemma RecCanvas.addOp_ops (c : RecCanvas) (op : ROp) :
    (c.addOp op).dl.ops = c.dl.ops ++ [op] := by
  unfold RecCanvas.addOp
  by_cases h : c.barrierType ≠ BarrierType.none <;> simp [h]

/-- C6: `saveLayer` maps the requested bounds through the current
transform, intersects with the render-target clip and viewport, maps back
and intersects with the requested bounds (`saveLayerBounds`); if that
result or the requested bounds are empty, no op is recorded at all, the
new snapshot's clip is reset to empty, and every draw baked against it is
dropped at deferral; otherwise exactly one BeginLayerOp is appended,
capturing the previous transform, previous render-target clip, and the
paint. -/
theorem saveLayer_rejection_and_single_beginLayerOp (c : RecCanvas) (l t r b : ℚ)
    (p : Option Paint) :
    (((c.saveLayerBounds l t r b).isEmpty || (Rect.isEmpty ⟨l, t, r, b⟩)) = true →
      (c.saveLayer l t r b p).dl = c.dl ∧
      (c.saveLayer l t r b p).currentSnapshot.clip = ⟨0, 0, 0, 0⟩ ∧
      ∀ opKey ub lm lc pp,
        tryBakeOpState (c.saveLayer l t r b p).currentSnapshot opKey ub lm lc pp = none)
    ∧ (((c.saveLayerBounds l t r b).isEmpty || (Rect.isEmpty ⟨l, t, r, b⟩)) = false →
      (c.saveLayer l t r b p).dl.ops =
        c.dl.ops ++ [ROp.BeginLayerOp ⟨l, t, r, b⟩ c.currentSnapshot.transform
          c.currentSnapshot.clip p] ∧
      (c.saveLayer l t r b p).dl.ops.countP (fun op => op.isBeginLayerOp) =
        c.dl.ops.countP (fun op => op.isBeginLayerOp) + 1) := by
  constructor
  · intro h
    have hsl : c.saveLayer l t r b p =
        { c with snapshots := { c.currentSnapshot with clip := ⟨0, 0, 0, 0⟩ } :: c.snapshots } := by
      unfold RecCanvas.saveLayer
      simp only [h, if_true]
    refine ⟨by rw [hsl], ?_, ?_⟩
    · rw [hsl]
      simp [RecCanvas.currentSnapshot]
    · intro opKey ub lm lc pp
      refine tryBakeOpState_none_of_zero_clip _ _ _ _ _ _ ?_
      rw [hsl]
      simp [RecCanvas.currentSnapshot]
  · intro h
    have hsl : c.saveLayer l t r b p =
        RecCanvas.addOp
          { c with snapshots :=
              { c.currentSnapshot with
                flags := c.currentSnapshot.flags |||
                  (SnapshotFlags.kFlagFboTarget ||| SnapshotFlags.kFlagIsFboLayer)
                viewportWidth := Rect.getWidth ⟨l, t, r, b⟩
                viewportHeight := Rect.getHeight ⟨l, t, r, b⟩
                transform := Mat.loadTranslate (-l) (-t)
                clip := (c.saveLayerBounds l t r b).translate (-l) (-t)
                roundRectClipState := none } :: c.snapshots }
          (ROp.BeginLayerOp ⟨l, t, r, b⟩ c.currentSnapshot.transform
            c.currentSnapshot.clip p) := by
      unfold RecCanvas.saveLayer
      simp only [h, Bool.false_eq_true, if_false]
    rw [hsl, RecCanvas.addOp_ops]
    refine ⟨rfl, ?_⟩
    rw [List.countP_append]
    simp [ROp.isBeginLayerOp]

/-- Evaluation of the layer-bounds pipeline on the saveLayer_contentRejection
scenario: a 200x200 recording whose current clip was narrowed to the empty
intersection (200,200)-(200,200) rejects a saveLayer over (200,200,400,400). -/
lemma saveLayerBounds_rejection_eval :
    (RecCanvas.saveLayerBounds
      ⟨[⟨Mat.identity, ⟨200, 200, 200, 200⟩, 200, 200, 0, none⟩],
        DisplayListT.empty, BarrierType.inOrder⟩
      200 200 400 400).isEmpty = true := by
  norm_num [RecCanvas.saveLayerBounds, RecCanvas.currentSnapshot, Mat.mapRect, Mat.mapPointX,
    Mat.mapPointY, Mat.identity, Mat.loadInverse, Mat.det, Rect.doIntersect,
    Rect.snapToPixelBoundaries, Rect.isEmpty, List.headI]

/-- Witness for C6 on the saveLayer_contentRejection scenario: nothing is
recorded and the pushed snapshot's clip is empty. -/
theorem saveLayer_rejection_and_single_beginLayerOp_witness :
    (RecCanvas.saveLayer
        ⟨[⟨Mat.identity, ⟨200, 200, 200, 200⟩, 200, 200, 0, none⟩],
          DisplayListT.empty, BarrierType.inOrder⟩
        200 200 400 400 none).dl = DisplayListT.empty ∧
    (RecCanvas.saveLayer
        ⟨[⟨Mat.identity, ⟨200, 200, 200, 200⟩, 200, 200, 0, none⟩],
          DisplayListT.empty, BarrierType.inOrder⟩
        200 200 400 400 none).currentSnapshot.clip = ⟨0, 0, 0, 0⟩ :=
  have h := (saveLayer_rejection_and_single_beginLayerOp
      ⟨[⟨Mat.identity, ⟨200, 200, 200, 200⟩, 200, 200, 0, none⟩],
        DisplayListT.empty, BarrierType.inOrder⟩
      200 200 400 400 none).1
    (by rw [saveLayerBounds_rejection_eval]; rfl)
  ⟨h.1, h.2.1⟩

/-! ## Claim C8: chunk coverage -/

/-- The recording-level actions that drive display-list chunk bookkeeping. -/
inductive RecAction where
  | addOp (op : ROp)
  | barrier (enableReorder : Bool)
deriving Repr

/-- Run a sequence of recording actions. -/
def RecCanvas.run (c : RecCanvas) : List RecAction → RecCanvas
  | [] => c
  | RecAction.addOp op :: rest => (c.addOp op).run rest
  | RecAction.barrier e :: rest => (c.insertReorderBarrier e).run rest

/-- The chunks partition an op range `[cur, total)`: each chunk starts where
the previous ended (the first at `cur`), is non-degenerate, and the last
ends at `total`. -/
def Chunk.partitionOk : ℕ → List Chunk → ℕ → Bool
  | cur, [], total => cur == total
  | cur, ch :: rest, total =>
    (ch.beginOpIndex == cur) && decide (ch.beginOpIndex < ch.endOpIndex) &&
      Chunk.partitionOk ch.endOpIndex rest total

lemma Chunk.partitionOk_append_new (chs : List Chunk) (cur total : ℕ) (bc ec : ℕ) (rf : Bool)
    (h : Chunk.partitionOk cur chs total = true) :
    Chunk.partitionOk cur (chs ++ [⟨total, total + 1, bc, ec, rf⟩]) (total + 1) = true := by
  induction chs generalizing cur with
  | nil =>
    have hc : cur = total := by simpa [Chunk.partitionOk] using h
    subst hc
    simp [Chunk.partitionOk]
  | cons ch rest ih =>
    rw [Chunk.partitionOk] at h
    rw [List.cons_append, Chunk.partitionOk]
    rcases Bool.and_eq_true .. |>.mp h with ⟨h1, h2⟩
    rw [h1, ih ch.endOpIndex h2]
    rfl

lemma Chunk.partitionOk_setLastEnd (chs : List Chunk) (cur total : ℕ)
    (h : Chunk.partitionOk cur chs total = true) (hne : chs ≠ []) :
    Chunk.partitionOk cur (Chunk.setLastEnd chs (total + 1)) (total + 1) = true := by
  induction chs generalizing cur with
  | nil => exact absurd rfl hne
  | cons ch rest ih =>
    cases rest with
    | nil =>
      rw [Chunk.partitionOk] at h
      rcases Bool.and_eq_true .. |>.mp h with ⟨h1, h2⟩
      rcases Bool.and_eq_true .. |>.mp h1 with ⟨hb, hlt⟩
      have hend : ch.endOpIndex = total := by
        simpa [Chunk.partitionOk] using h2
      have hlt' : ch.beginOpIndex < total + 1 := by
        have := of_decide_eq_true hlt
        omega
      rw [Chunk.setLastEnd, Chunk.partitionOk]
      simp [hb, hlt', Chunk.partitionOk]
    | cons ch2 rest2 =>
      rw [Chunk.partitionOk] at h
      rcases Bool.and_eq_true .. |>.mp h with ⟨h1, h2⟩
      have hstep : Chunk.setLastEnd (ch :: ch2 :: rest2) (total + 1) =
          ch :: Chunk.setLastEnd (ch2 :: rest2) (total + 1) := rfl
      rw [hstep, Chunk.partitionOk, h1, ih ch.endOpIndex h2 (by simp)]
      rfl

/-- The recording invariant: chunks partition the recorded ops, and once at
least one op exists (barrier consumed) the chunk list is non-empty. -/
def RecInv (c : RecCanvas) : Prop :=
  Chunk.partitionOk 0 c.dl.chunks c.dl.ops.length = true ∧
    (c.barrierType = BarrierType.none → c.dl.chunks ≠ [])

lemma Chunk.setLastEnd_ne_nil (chs : List Chunk) (e : ℕ) (h : chs ≠ []) :
    Chunk.setLastEnd chs e ≠ [] := by
  cases chs with
  | nil => exact absurd rfl h
  | cons ch rest =>
    cases rest with
    | nil => simp [Chunk.setLastEnd]
    | cons ch2 rest2 => simp [Chunk.setLastEnd]

lemma RecInv.addOp (c : RecCanvas) (op : ROp) (h : RecInv c) : RecInv (c.addOp op) := by
  obtain ⟨hpart, hne⟩ := h
  unfold RecInv RecCanvas.addOp
  by_cases hb : c.barrierType = BarrierType.none
  · rw [if_neg (not_not_intro hb)]
    constructor
    · simp only [List.length_append, List.length_singleton]
      exact Chunk.partitionOk_setLastEnd c.dl.chunks 0 c.dl.ops.length hpart (hne hb)
    · intro _
      exact Chunk.setLastEnd_ne_nil c.dl.chunks _ (hne hb)
  · rw [if_pos hb]
    constructor
    · simp only [List.length_append, List.length_singleton]
      exact Chunk.partitionOk_append_new c.dl.chunks 0 c.dl.ops.length _ _ _ hpart
    · intro _
      simp

lemma RecInv.barrier (c : RecCanvas) (e : Bool) (h : RecInv c) :
    RecInv (c.insertReorderBarrier e) := by
  obtain ⟨hpart, _⟩ := h
  refine ⟨hpart, ?_⟩
  intro hc
  unfold RecCanvas.insertReorderBarrier at hc
  cases e <;> simp at hc

lemma RecInv.run (c : RecCanvas) (actions : List RecAction) (h : RecInv c) :
    RecInv (c.run actions) := by
  induction actions generalizing c with
  | nil => exact h
  | cons a rest ih =>
    cases a with
    | addOp op => exact ih (c.addOp op) (RecInv.addOp c op h)
    | barrier e => exact ih (c.insertReorderBarrier e) (RecInv.barrier c e h)

lemma RecInv.reset (w h : ℚ) : RecInv (RecCanvas.reset w h) := by
  constructor
  · rfl
  · intro hc
    exact BarrierType.noConfusion hc

lemma Chunk.setLastEnd_length (chs : List Chunk) (e : ℕ) :
    (Chunk.setLastEnd chs e).length = chs.length := by
  induction chs with
  | nil => rfl
  | cons ch rest ih =>
    cases rest with
    | nil => rfl
    | cons ch2 rest2 =>
      have : Chunk.setLastEnd (ch :: ch2 :: rest2) e =
          ch :: Chunk.setLastEnd (ch2 :: rest2) e := rfl
      rw [this, List.length_cons, List.length_cons, ih]

/-- C8: (i) for every finished recording, the chunks partition the op
sequence: the first chunk begins at index 0, chunks are contiguous and
non-degenerate, and the last ends at the op count; (ii) `addOp` opens a new
chunk exactly when a reorder-barrier state is pending (i.e. was set since
the previous op — every `addOp` clears it and every `insertReorderBarrier`
sets it); (iii) an opened chunk starts at the new op's index and records
reorder-eligibility as (pending barrier = OutOfOrder); (iv) the
insertReorderBarrier unit-test recording yields chunks (0,1,#false) and
(1,2,#true). -/
theorem displayList_chunk_coverage :
    (∀ (w h : ℚ) (actions : List RecAction),
      Chunk.partitionOk 0 ((RecCanvas.reset w h).run actions).dl.chunks
        ((RecCanvas.reset w h).run actions).dl.ops.length = true)
    ∧ (∀ (c : RecCanvas) (op : ROp),
      (c.addOp op).dl.chunks.length = c.dl.chunks.length + 1 ↔
        c.barrierType ≠ BarrierType.none)
    ∧ (∀ (c : RecCanvas) (op : ROp), c.barrierType ≠ BarrierType.none →
      (c.addOp op).dl.chunks.getLast? =
        some ⟨c.dl.ops.length, c.dl.ops.length + 1, c.dl.children.length,
          c.dl.children.length, c.barrierType == BarrierType.outOfOrder⟩)
    ∧ (∀ (c : RecCanvas) (op : ROp), (c.addOp op).barrierType = BarrierType.none)
    ∧ (∀ (c : RecCanvas) (e : Bool),
      (c.insertReorderBarrier e).barrierType ≠ BarrierType.none)
    ∧ ((RecCanvas.reset 200 200).run
        [RecAction.addOp (ROp.RectOp ⟨0, 0, 400, 400⟩ Mat.identity ⟨0, 0, 200, 200⟩ none),
         RecAction.barrier true, RecAction.barrier false, RecAction.barrier false,
         RecAction.barrier true,
         RecAction.addOp (ROp.RectOp ⟨0, 0, 400, 400⟩ Mat.identity ⟨0, 0, 200, 200⟩ none),
         RecAction.barrier false]).dl.chunks =
      [⟨0, 1, 0, 0, false⟩, ⟨1, 2, 0, 0, true⟩] := by
  refine ⟨?_, ?_, ?_, ?_, ?_, by decide⟩
  · intro w h actions
    exact (RecInv.run _ actions (RecInv.reset w h)).1
  · intro c op
    unfold RecCanvas.addOp
    by_cases hb : c.barrierType = BarrierType.none
    · rw [if_neg (not_not_intro hb)]
      simp [Chunk.setLastEnd_length, hb]
    · rw [if_pos hb]
      simp [hb]
  · intro c op hb
    unfold RecCanvas.addOp
    rw [if_pos hb]
    simp only [List.getLast?_concat]
  · intro c op
    unfold RecCanvas.addOp
    by_cases hb : c.barrierType = BarrierType.none
    · rw [if_neg (not_not_intro hb)]
      exact hb
    · rw [if_pos hb]
  · intro c e
    unfold RecCanvas.insertReorderBarrier
    cases e <;> simp

/-- Witness for C8: the first op after reset opens chunk (0,1), not
reorder-eligible. -/
theorem displayList_chunk_coverage_witness :
    ((RecCanvas.reset 200 200).addOp
        (ROp.RectOp ⟨0, 0, 400, 400⟩ Mat.identity ⟨0, 0, 200, 200⟩ none)).dl.chunks.getLast? =
      some ⟨0, 1, 0, 0, false⟩ :=
  displayList_chunk_coverage.2.2.1 (RecCanvas.reset 200 200)
    (ROp.RectOp ⟨0, 0, 400, 400⟩ Mat.identity ⟨0, 0, 200, 200⟩ none) (by decide)

/-! ## OpReorderer layer lifecycle (OpReorderer.cpp lines 442-492) -/

/-- The state a `BeginLayerOp` carries for the later compositing draw
(RecordedOp.h BASE_PARAMS of BeginLayerOp). -/
structure BeginLayerData where
  unmappedBounds : Rect
  localMatrix : Mat
  localClipRect : Rect
  paint : Option Paint
deriving DecidableEq, Repr

/-- `OpReorderer::LayerReorderer`: dimensions, the offscreen buffer handle
(`renderNode ? renderNode->getLayer() : nullptr`), the originating
BeginLayerOp (null for the root and for update-queue layers), the
render-node back-reference, and the layer's batching state. -/
structure LayerR where
  width : ℚ
  height : ℚ
  offscreenBuffer : Option ℕ
  beginLayerOp : Option BeginLayerData
  renderNode : Option ℕ
  state : LayerState

/-- Modelled from the spec: `LayerReorderer::clear()` (declared in
`OpReorderer.h`, not under src/): "discard its batches without emitting
anything" (spec §4.3 End-layer). -/
def LayerR.clear (l : LayerR) : LayerR :=
  { l with state := { l.state with batches := [] } }

/-- The `OpReorderer` traversal state: `layers` is `mLayerReorderers`
(index = creation order), `layerStack` is `mLayerStack` (last = current),
`snapshots` is the canvas-state save stack (head = current). -/
structure Reorderer where
  layers : List LayerR
  layerStack : List ℕ
  snapshots : List Snapshot

/-- `OpReorderer::saveForLayer(layerWidth, layerHeight, beginLayerOp,
renderNode)` (OpReorderer.cpp lines 442-453): push a snapshot with
identity transform and a viewport initialized to the layer (clip reset to
the layer rect — `initializeViewport`, modelled from spec §4.1 "Entering a
save-layer installs an isolated snapshot"), null round-rect state, then
push a fresh LayerReorderer and its index. -/
def Reorderer.saveForLayer (r : Reorderer) (w h : ℚ) (blo : Option BeginLayerData)
    (renderNode : Option ℕ) (buffer : Option ℕ) : Reorderer :=
  let snap : Snapshot :=
    { r.snapshots.headI with
      transform := Mat.identity
      viewportWidth := w
      viewportHeight := h
      clip := ⟨0, 0, w, h⟩
      roundRectClipState := none }
  { layers := r.layers ++ [⟨w, h, buffer, blo, renderNode, LayerState.empty⟩]
    layerStack := r.layerStack ++ [r.layers.length]
    snapshots := snap :: r.snapshots }

/-- `OpReorderer::restoreForLayer()` (OpReorderer.cpp lines 455-459). -/
def Reorderer.restoreForLayer (r : Reorderer) : Reorderer :=
  { r with snapshots := r.snapshots.tail, layerStack := r.layerStack.dropLast }

/-- `OpReorderer::onBeginLayerOp` (OpReorderer.cpp lines 462-466). -/
def Reorderer.onBeginLayerOp (r : Reorderer) (op : BeginLayerData) : Reorderer :=
  r.saveForLayer op.unmappedBounds.getWidth op.unmappedBounds.getHeight (some op) none none

/-- Identity token for the LayerOp synthesized when layer `i` finishes. -/
def layerDrawOpKey (i : ℕ) : ℕ := i

/-- `OpReorderer::onEndLayerOp` (OpReorderer.cpp lines 468-492): pop the
layer context; bake a LayerOp built from the originating BeginLayerOp's
bounds/transform/clip/paint against the parent snapshot; on success defer
it into the (now current) parent layer as an unmergeable Bitmap-class op;
on rejection clear the finished layer's batches. -/
def Reorderer.onEndLayerOp (r : Reorderer) : Reorderer :=
  match r.layerStack.getLast? with
  | none => r
  | some finishedLayerIndex =>
    match r.layers[finishedLayerIndex]? with
    | none => r
    | some fin =>
      match fin.beginLayerOp with
      | none => r
      | some blo =>
        let r' := r.restoreForLayer
        match tryBakeOpState r'.snapshots.headI (layerDrawOpKey finishedLayerIndex)
            blo.unmappedBounds blo.localMatrix blo.localClipRect blo.paint with
        | some bakedOpState =>
          match r'.layerStack.getLast? with
          | none => r'
          | some parentIdx =>
            match r'.layers[parentIdx]? with
            | none => r'
            | some parent =>
              let parent' := { parent with
                state := parent.state.deferUnmergeableOp bakedOpState OpBatchType.Bitmap }
              { r' with layers := r'.layers.set parentIdx parent' }
        | none =>
          match r'.layers[finishedLayerIndex]? with
          | none => r'
          | some finL =>
            { r' with layers := r'.layers.set finishedLayerIndex finL.clear }

/-! ## Claim C7 -/

/-- C7: processing an EndLayerOp pops the active layer context; when the
synthesized layer-draw op (built from the originating BeginLayerOp's
bounds, transform, clip and paint) bakes successfully against the parent
snapshot, it is deferred into the parent layer's batching state as an
unmergeable op of the Bitmap batch type and the finished layer is kept;
when it is rejected, the finished layer's batches are discarded, so the
layer replays nothing. -/
theorem onEndLayerOp_composite_or_discard (r : Reorderer) (stk : List ℕ) (p f : ℕ)
    (fin parent : LayerR) (blo : BeginLayerData) (s0 s1 : Snapshot) (srest : List Snapshot)
    (hstack : r.layerStack = stk ++ [p, f])
    (hf : r.layers[f]? = some fin)
    (hblo : fin.beginLayerOp = some blo)
    (hp : r.layers[p]? = some parent)
    (hpf : p ≠ f)
    (hsnap : r.snapshots = s0 :: s1 :: srest) :
    (∀ baked, tryBakeOpState s1 (layerDrawOpKey f) blo.unmappedBounds blo.localMatrix
        blo.localClipRect blo.paint = some baked →
      r.onEndLayerOp.layers[p]? = some
        { parent with state := parent.state.deferUnmergeableOp baked OpBatchType.Bitmap } ∧
      r.onEndLayerOp.layers[f]? = some fin ∧
      r.onEndLayerOp.layerStack = stk ++ [p])
    ∧ (tryBakeOpState s1 (layerDrawOpKey f) blo.unmappedBounds blo.localMatrix
        blo.localClipRect blo.paint = none →
      r.onEndLayerOp.layers[f]? = some fin.clear ∧
      fin.clear.state.replayBakedOpsImpl = [] ∧
      r.onEndLayerOp.layerStack = stk ++ [p])
    ∧ (∀ l : LayerR, l.clear.state.replayBakedOpsImpl = []) := by
  have hlast : r.layerStack.getLast? = some f := by
    rw [hstack, show stk ++ [p, f] = (stk ++ [p]) ++ [f] by simp]
    exact List.getLast?_concat _
  have hdrop : r.layerStack.dropLast = stk ++ [p] := by
    rw [hstack, show stk ++ [p, f] = (stk ++ [p]) ++ [f] by simp]
    exact List.dropLast_concat
  have hplast : (stk ++ [p]).getLast? = some p := List.getLast?_concat _
  have htail : r.snapshots.tail = s1 :: srest := by rw [hsnap]; rfl
  have hheadI : (s1 :: srest).headI = s1 := rfl
  refine ⟨?_, ?_, ?_⟩
  · intro baked hbake
    have hres : r.onEndLayerOp =
        { layers := r.layers.set p
            { parent with state := parent.state.deferUnmergeableOp baked OpBatchType.Bitmap }
          layerStack := stk ++ [p]
          snapshots := s1 :: srest } := by
      unfold Reorderer.onEndLayerOp
      rw [hlast]
      simp only [hf, hblo]
      unfold Reorderer.restoreForLayer
      simp only [htail, hheadI, hdrop, hbake, hplast, hp]
    rw [hres]
    refine ⟨?_, ?_, rfl⟩
    · exact List.getElem?_set_eq_of_lt _ (List.getElem?_some_lt _ _ _ hp)
    · rw [List.getElem?_set_ne hpf]
      exact hf
  · intro hbake
    have hres : r.onEndLayerOp =
        { layers := r.layers.set f fin.clear
          layerStack := stk ++ [p]
          snapshots := s1 :: srest } := by
      unfold Reorderer.onEndLayerOp
      rw [hlast]
      simp only [hf, hblo]
      unfold Reorderer.restoreForLayer
      simp only [htail, hheadI, hdrop, hbake, hf]
    rw [hres]
    refine ⟨?_, rfl, rfl⟩
    exact List.getElem?_set_eq_of_lt _ (List.getElem?_some_lt _ _ _ hf)
  · intro l
    rfl

/-- Evaluation of the synthesized layer-draw bake against a 200x200 parent
snapshot: a (10,10,190,190) layer under identity transform bakes to the
same clipped bounds, unclipped. -/
lemma tryBake_layerDraw_eval :
    tryBakeOpState ⟨Mat.identity, ⟨0, 0, 200, 200⟩, 200, 200, 0, none⟩ 1
      ⟨10, 10, 190, 190⟩ Mat.identity ⟨0, 0, 200, 200⟩ none =
    some ⟨1, ⟨10, 10, 190, 190⟩, ⟨0, 0, 200, 200⟩, 0, 1, none, none, none⟩ := by
  norm_num [tryBakeOpState, Mat.multiply, Mat.mapRect, Mat.mapPointX, Mat.mapPointY,
    Mat.identity, Rect.doIntersect, Rect.isEmpty, OpClipSideFlags.Left, OpClipSideFlags.Top,
    OpClipSideFlags.Right, OpClipSideFlags.Bottom, Nat.zero_or]

/-- Witness for C7: finishing a (10,10,190,190) layer under the root defers
the synthesized layer op into the root layer's batches. -/
theorem onEndLayerOp_composite_or_discard_witness :
    (Reorderer.onEndLayerOp
      ⟨[⟨200, 200, none, none, none, LayerState.empty⟩,
        ⟨180, 180, none,
          some ⟨⟨10, 10, 190, 190⟩, Mat.identity, ⟨0, 0, 200, 200⟩, none⟩,
          none, LayerState.empty⟩],
       [0, 1],
       [⟨Mat.identity, ⟨0, 0, 180, 180⟩, 180, 180, 0, none⟩,
        ⟨Mat.identity, ⟨0, 0, 200, 200⟩, 200, 200, 0, none⟩]⟩).layers[0]? =
    some ⟨200, 200, none, none, none,
      LayerState.empty.deferUnmergeableOp
        ⟨1, ⟨10, 10, 190, 190⟩, ⟨0, 0, 200, 200⟩, 0, 1, none, none, none⟩
        OpBatchType.Bitmap⟩ :=
  ((onEndLayerOp_composite_or_discard
      ⟨[⟨200, 200, none, none, none, LayerState.empty⟩,
        ⟨180, 180, none,
          some ⟨⟨10, 10, 190, 190⟩, Mat.identity, ⟨0, 0, 200, 200⟩, none⟩,
          none, LayerState.empty⟩],
       [0, 1],
       [⟨Mat.identity, ⟨0, 0, 180, 180⟩, 180, 180, 0, none⟩,
        ⟨Mat.identity, ⟨0, 0, 200, 200⟩, 200, 200, 0, none⟩]⟩
      [] 0 1
      ⟨180, 180, none,
        some ⟨⟨10, 10, 190, 190⟩, Mat.identity, ⟨0, 0, 200, 200⟩, none⟩,
        none, LayerState.empty⟩
      ⟨200, 200, none, none, none, LayerState.empty⟩
      ⟨⟨10, 10, 190, 190⟩, Mat.identity, ⟨0, 0, 200, 200⟩, none⟩
      ⟨Mat.identity, ⟨0, 0, 180, 180⟩, 180, 180, 0, none⟩
      ⟨Mat.identity, ⟨0, 0, 200, 200⟩, 200, 200, 0, none⟩
      []
      rfl rfl rfl rfl (by decide) rfl).1
    ⟨1, ⟨10, 10, 190, 190⟩, ⟨0, 0, 200, 200⟩, 0, 1, none, none, none⟩
    tryBake_layerDraw_eval).1

/-! ## Z reordering (claim C2) -/

/-- An entry of a recorded chunk as seen by the deferral walk: a plain
drawing op, or a child render node carrying its elevation (translationZ). -/
inductive ZItem where
  | plainOp (tag : ℕ)
  | node (tag : ℕ) (z : ℚ)
deriving DecidableEq, Repr

def ZItem.tag : ZItem → ℕ
  | ZItem.plainOp t => t
  | ZItem.node t _ => t

/-- Stable ascending sort by elevation (insertion sort: an element is
placed before the first element of equal-or-larger elevation, so equal
elevations keep recording order). -/
def sortByZ (l : List (ℕ × ℚ)) : List (ℕ × ℚ) :=
  l.insertionSort (fun a b => a.2 ≤ b.2)

/-- The negative-elevation children of a chunk, in recording order. -/
def zNegs (items : List ZItem) : List (ℕ × ℚ) :=
  items.filterMap (fun it =>
    match it with
    | ZItem.node tag z => if z < 0 then some (tag, z) else none
    | ZItem.plainOp _ => none)

/-- The positive-elevation children of a chunk, in recording order. -/
def zPos (items : List ZItem) : List (ℕ × ℚ) :=
  items.filterMap (fun it =>
    match it with
    | ZItem.node tag z => if 0 < z then some (tag, z) else none
    | ZItem.plainOp _ => none)

/-- The in-order content of a chunk: plain ops and zero-elevation nodes,
in recording order. -/
def zInOrder (items : List ZItem) : List ℕ :=
  items.filterMap (fun it =>
    match it with
    | ZItem.plainOp tag => some tag
    | ZItem.node tag z => if z = 0 then some tag else none)

/-- Modelled from the spec: the draw order of one chunk
(`FrameBuilder::deferNodeOps` with `defer3dChildren`, not under src/;
spec §4.3 "Z-ordering and projection", behaviour pinned by
FrameBuilderTests `zReorder`): outside a reorder-enabled chunk everything
draws in recording order; inside one, the negative-elevation nodes draw
first in ascending elevation order, then the in-order content, then the
positive-elevation nodes in ascending elevation order, equal elevations
keeping recording order. -/
def drawZChunk (reorderChildren : Bool) (items : List ZItem) : List ℕ :=
  if !reorderChildren then items.map ZItem.tag
  else
    (sortByZ (zNegs items)).map Prod.fst ++ zInOrder items ++
      (sortByZ (zPos items)).map Prod.fst

/-- Draw order of a whole display list, chunk by chunk. -/
def drawChunks (chunks : List (Bool × List ZItem)) : List ℕ :=
  (chunks.map (fun ch => drawZChunk ch.1 ch.2)).flatten

/-- `RenderNodeDrawable::onDraw` (RenderNodeDrawable.cpp lines 51-56):
only (epsilon-)zero-elevation nodes draw at their in-order position. -/
def RenderNodeDrawable.onDrawEmits (z : ℚ) : Bool :=
  MathUtils.isZero z

lemma zOrder_unsorted_perm (items : List ZItem) :
    ((zNegs items).map Prod.fst ++ zInOrder items ++ (zPos items).map Prod.fst).Perm
      (items.map ZItem.tag) := by
  induction items with
  | nil => simp [zNegs, zPos, zInOrder]
  | cons x xs ih =>
    cases x with
    | plainOp tag =>
      have h1 : zNegs (ZItem.plainOp tag :: xs) = zNegs xs := rfl
      have h2 : zInOrder (ZItem.plainOp tag :: xs) = tag :: zInOrder xs := rfl
      have h3 : zPos (ZItem.plainOp tag :: xs) = zPos xs := rfl
      rw [h1, h2, h3, List.map_cons]
      have hmid : (zNegs xs).map Prod.fst ++ (tag :: zInOrder xs) ++ (zPos xs).map Prod.fst =
          (zNegs xs).map Prod.fst ++ tag ::
            (zInOrder xs ++ (zPos xs).map Prod.fst) := by
        simp
      rw [hmid]
      refine List.perm_middle.trans ?_
      refine List.Perm.cons (ZItem.tag (ZItem.plainOp tag)) ?_
      rw [← List.append_assoc]
      exact ih
    | node tag z =>
      rcases lt_trichotomy z 0 with h | h | h
      · have h1 : zNegs (ZItem.node tag z :: xs) = (tag, z) :: zNegs xs := by
          simp [zNegs, List.filterMap_cons, h]
        have h2 : zInOrder (ZItem.node tag z :: xs) = zInOrder xs := by
          simp [zInOrder, List.filterMap_cons, ne_of_lt h]
        have h3 : zPos (ZItem.node tag z :: xs) = zPos xs := by
          simp [zPos, List.filterMap_cons, not_lt_of_lt h]
        rw [h1, h2, h3, List.map_cons, List.map_cons]
        exact List.Perm.cons _ ih
      · have h1 : zNegs (ZItem.node tag z :: xs) = zNegs xs := by
          simp [zNegs, List.filterMap_cons, h]
        have h2 : zInOrder (ZItem.node tag z :: xs) = tag :: zInOrder xs := by
          simp [zInOrder, List.filterMap_cons, h]
        have h3 : zPos (ZItem.node tag z :: xs) = zPos xs := by
          simp [zPos, List.filterMap_cons, h]
        rw [h1, h2, h3, List.map_cons]
        have hmid : (zNegs xs).map Prod.fst ++ (tag :: zInOrder xs) ++ (zPos xs).map Prod.fst =
            (zNegs xs).map Prod.fst ++ tag ::
              (zInOrder xs ++ (zPos xs).map Prod.fst) := by
          simp
        rw [hmid]
        refine List.perm_middle.trans ?_
        refine List.Perm.cons _ ?_
        rw [← List.append_assoc]
        exact ih
      · have h1 : zNegs (ZItem.node tag z :: xs) = zNegs xs := by
          simp [zNegs, List.filterMap_cons, not_lt_of_lt h]
        have h2 : zInOrder (ZItem.node tag z :: xs) = zInOrder xs := by
          simp [zInOrder, List.filterMap_cons, (ne_of_lt h).symm]
        have h3 : zPos (ZItem.node tag z :: xs) = (tag, z) :: zPos xs := by
          simp [zPos, List.filterMap_cons, h]
        rw [h1, h2, h3, List.map_cons, List.map_cons]
        have hmid : (zNegs xs).map Prod.fst ++ zInOrder xs ++
            (tag :: (zPos xs).map Prod.fst) =
            ((zNegs xs).map Prod.fst ++ zInOrder xs) ++ tag ::
              (zPos xs).map Prod.fst := by
          simp
        rw [hmid]
        refine List.perm_middle.trans ?_
        exact List.Perm.cons _ ih

/-- C2: within a reorder-enabled chunk the draw order is the
negative-elevation group first, then the in-order content (plain ops and
zero-elevation nodes in recording order), then the positive-elevation
group, each group stably sorted ascending by elevation (a permutation of
the recording); outside a reorder-enabled chunk the recording order is
kept; non-zero-elevation nodes are not drawn by the in-order `onDraw`
gate; and the zReorder test recording replays as 0..9. -/
theorem zReorder_elevation_order :
    (∀ items : List ZItem, drawZChunk false items = items.map ZItem.tag)
    ∧ (∀ items : List ZItem, (drawZChunk true items).Perm (items.map ZItem.tag))
    ∧ (∀ l : List (ℕ × ℚ),
        (sortByZ l).Sorted (fun a b => a.2 ≤ b.2) ∧ (sortByZ l).Perm l)
    ∧ (∀ z : ℚ, MathUtils.isZero z = false → RenderNodeDrawable.onDrawEmits z = false)
    ∧ drawChunks
        [(false, [ZItem.node 0 10, ZItem.plainOp 1]),
         (true, [ZItem.node 6 2, ZItem.plainOp 3, ZItem.node 4 0, ZItem.plainOp 5,
                 ZItem.node 2 (-2), ZItem.node 7 2]),
         (false, [ZItem.plainOp 8, ZItem.node 9 (-10)])] =
      [0, 1, 2, 3, 4, 5, 6, 7, 8, 9] := by
  haveI htotal : IsTotal (ℕ × ℚ) (fun a b => a.2 ≤ b.2) := ⟨fun a b => le_total a.2 b.2⟩
  haveI htrans : IsTrans (ℕ × ℚ) (fun a b => a.2 ≤ b.2) := ⟨fun _ _ _ h1 h2 => le_trans h1 h2⟩
  refine ⟨?_, ?_, ?_, ?_, by decide⟩
  · intro items
    rfl
  · intro items
    have hstep : drawZChunk true items =
        (sortByZ (zNegs items)).map Prod.fst ++ zInOrder items ++
          (sortByZ (zPos items)).map Prod.fst := rfl
    rw [hstep]
    refine List.Perm.trans ?_ (zOrder_unsorted_perm items)
    exact List.Perm.append
      (List.Perm.append (List.Perm.map _ (List.perm_insertionSort _ _)) (List.Perm.refl _))
      (List.Perm.map _ (List.perm_insertionSort _ _))
  · intro l
    exact ⟨List.sorted_insertionSort _ l, List.perm_insertionSort _ l⟩
  · intro z h
    exact h

/-- Witness for C2: a reorder-enabled chunk with elevations
[2, 0, -2, 2] (and interleaved plain ops) draws negatives, in-order
content, then positives with the recording-order tie kept. -/
theorem zReorder_elevation_order_witness :
    (drawZChunk true
      [ZItem.node 6 2, ZItem.plainOp 3, ZItem.node 4 0, ZItem.plainOp 5,
       ZItem.node 2 (-2), ZItem.node 7 2]).Perm
      ([ZItem.node 6 2, ZItem.plainOp 3, ZItem.node 4 0, ZItem.plainOp 5,
        ZItem.node 2 (-2), ZItem.node 7 2].map ZItem.tag)
    ∧ RenderNodeDrawable.onDrawEmits 2 = false :=
  ⟨zReorder_elevation_order.2.1
      [ZItem.node 6 2, ZItem.plainOp 3, ZItem.node 4 0, ZItem.plainOp 5,
       ZItem.node 2 (-2), ZItem.node 7 2],
   zReorder_elevation_order.2.2.2.1 2 (by decide)⟩

/-! ## Projection walk (claim C9, RenderNodeDrawable.cpp lines 51-123) -/

mutual
/-- A render node as seen by `RenderNodeDrawable`: its identity tag, whether
its display list is a projection receiver, whether it projects backwards,
whether its outline clips, and its child drawables in paint order. Children
are a mutually-defined forest so that the tree walk is structural.
The node's own drawing is one content event emitted before the children
(`drawContent`, modelled from the spec: the SkiaDisplayList drawable that
iterates children is not under src/). -/
inductive PNode where
  | mk (tag : ℕ) (receiver : Bool) (projectBackwards : Bool) (outlineClips : Bool)
      (children : PForest)
deriving Repr
inductive PForest where
  | nil
  | cons (head : PNode) (tail : PForest)
deriving Repr
end

def PNode.tag : PNode → ℕ
  | PNode.mk t _ _ _ _ => t

def PNode.childrenF : PNode → PForest
  | PNode.mk _ _ _ _ cs => cs

def PForest.toList : PForest → List PNode
  | PForest.nil => []
  | PForest.cons c cs => c :: cs.toList

mutual
def PNode.tags : PNode → List ℕ
  | PNode.mk t _ _ _ cs => t :: PForest.tags cs
def PForest.tags : PForest → List ℕ
  | PForest.nil => []
  | PForest.cons c cs => c.tags ++ PForest.tags cs
end

/-- The observable drawing events of the projection walk: a node's content
draw, and the save+clipOutline / restore pair around replayed projected
nodes (RenderNodeDrawable.cpp lines 92-104). -/
inductive PEv where
  | content (tag : ℕ)
  | clipPush
  | clipPop
deriving DecidableEq, Repr

/-- An entry of a `std::vector<ProjectedChild>` collector: the projected
node's tag and its later `drawContent` replay (the projected node's
children draw with null targets, since the early return at lines 106-111
skips the target-threading loop). -/
structure PushItem where
  tag : ℕ
  replay : List PEv
deriving DecidableEq, Repr

mutual
/-- `RenderNodeDrawable::forceDraw` (RenderNodeDrawable.cpp lines 58-123).
`projActive` / `nextActive` say whether `mProjectedChildrenTarget` /
`mNextProjectedChildrenTarget` are non-null. Returns the emitted events
and, chronologically, the nodes pushed to the incoming collectors, marked
true for the proj collector and false for the next collector.
A receiver (lines 78-104) runs its children with their proj target set to
its own incoming next target ("delayed one level") and their next target
set to a fresh local list, draws its content and children, then replays
the locally collected nodes, clipped to its outline when the outline
clips. A projecting-backwards node with an active proj collector
(lines 106-111) draws nothing and pushes itself. Any other node threads
its next target to both of its children's targets and draws in order. -/
def walk : PNode → Bool → Bool → List PEv × List (Bool × PushItem)
  | PNode.mk tag receiver projBack outClips children, projActive, nextActive =>
    if receiver then
      let rs := walkForest children nextActive true
      let localItems := (rs.2.filter (fun p => !p.1)).map Prod.snd
      let upwards := (rs.2.filter (fun p => p.1)).map (fun p => (false, p.2))
      let projTrace := (localItems.map PushItem.replay).flatten
      (PEv.content tag :: rs.1 ++
        (if outClips then PEv.clipPush :: projTrace ++ [PEv.clipPop] else projTrace),
       upwards)
    else if projBack && projActive then
      ([], [(true, ⟨tag, PEv.content tag :: (walkForest children false false).1⟩)])
    else
      let rs := walkForest children nextActive nextActive
      (PEv.content tag :: rs.1, rs.2.map (fun p => (false, p.2)))
def walkForest : PForest → Bool → Bool → List PEv × List (Bool × PushItem)
  | PForest.nil, _, _ => ([], [])
  | PForest.cons c cs, projActive, nextActive =>
    let r := walk c projActive nextActive
    let rs := walkForest cs projActive nextActive
    (r.1 ++ rs.1, r.2 ++ rs.2)
end

/-- One frame: the root drawable is drawn with both collector targets
null. -/
def rootDraw (n : PNode) : List PEv := (walk n false false).1

/-- The projected nodes a receiver collects while drawing its children. -/
def receiverCollected (children : PForest) (nextActive : Bool) : List PushItem :=
  ((walkForest children nextActive true).2.filter (fun p => !p.1)).map Prod.snd

/-- The tags of the content events of a trace. -/
def contentTags (evs : List PEv) : List ℕ :=
  evs.filterMap (fun e =>
    match e with
    | PEv.content t => some t
    | _ => none)

/-- The content tags inside the collected replays of a push list. -/
def pushContents (ps : List (Bool × PushItem)) : List ℕ :=
  (ps.map (fun p => contentTags p.2.replay)).flatten

theorem PNode.tag_mem_tags (c : PNode) : c.tag ∈ c.tags := by
  cases c with
  | mk t r pb oc cs =>
    rw [PNode.tags]
    exact List.mem_cons_self t (PForest.tags cs)

theorem PForest.mem_tags_of_mem : (f : PForest) → (c : PNode) → c ∈ f.toList →
    ∀ x ∈ c.tags, x ∈ f.tags
  | PForest.nil, c, hc => by cases hc
  | PForest.cons d ds, c, hc => by
    intro x hx
    rw [PForest.tags]
    rcases List.mem_cons.mp hc with h | h
    · subst h
      exact List.mem_append_left _ hx
    · exact List.mem_append_right _ (PForest.mem_tags_of_mem ds c h x hx)

theorem PNode.mem_tags_of_child (c : PNode) (d : PNode) (hd : d ∈ c.childrenF.toList)
    (x : ℕ) (hx : x ∈ d.tags) : x ∈ c.tags := by
  cases c with
  | mk t r pb oc cs =>
    rw [PNode.tags]
    exact List.mem_cons_of_mem t (PForest.mem_tags_of_mem cs d hd x hx)

mutual
/-- A node only ever pushes itself to a collector that was handed to it:
a proj-marked push needs an active proj target, a next-marked push needs an
active next target. -/
theorem walk_pushes_flags (n : PNode) (pa na : Bool) :
    ∀ p ∈ (walk n pa na).2, (p.1 = true → pa = true) ∧ (p.1 = false → na = true) := by
  cases n with
  | mk tag receiver projBack outClips children =>
    intro p hp
    rw [walk] at hp
    by_cases hrec : receiver
    · simp only [hrec, if_true, List.mem_map, List.mem_filter] at hp
      obtain ⟨q, ⟨hq, hq1⟩, hq2⟩ := hp
      have hf := walkForest_pushes_flags children na true q hq
      constructor
      · intro ht
        rw [← hq2] at ht
        cases ht
      · intro _
        exact hf.1 hq1
    · by_cases hproj : (projBack && pa) = true
      · simp only [hrec, Bool.false_eq_true, if_false, hproj, if_true,
          List.mem_singleton] at hp
        subst hp
        refine ⟨fun _ => ?_, fun hf => ?_⟩
        · rw [Bool.and_eq_true] at hproj
          exact hproj.2
        · cases hf
      · simp only [hrec, Bool.false_eq_true, if_false, hproj, List.mem_map] at hp
        obtain ⟨q, hq, hq2⟩ := hp
        have hf := walkForest_pushes_flags children na na q hq
        constructor
        · intro ht
          rw [← hq2] at ht
          cases ht
        · intro _
          cases hq1 : q.1
          · exact hf.2 hq1
          · exact hf.1 hq1
theorem walkForest_pushes_flags (f : PForest) (pa na : Bool) :
    ∀ p ∈ (walkForest f pa na).2, (p.1 = true → pa = true) ∧ (p.1 = false → na = true) := by
  cases f with
  | nil =>
    intro p hp
    rw [walkForest] at hp
    cases hp
  | cons c cs =>
    intro p hp
    rw [walkForest] at hp
    rcases List.mem_append.mp hp with h | h
    · exact walk_pushes_flags c pa na p h
    · exact walkForest_pushes_flags cs pa na p h
end

/-- With both collector targets null nothing escapes the node. -/
theorem walk_root_pushes_nil (n : PNode) : (walk n false false).2 = [] := by
  cases hx : (walk n false false).2 with
  | nil => rfl
  | cons p ps =>
    have h := walk_pushes_flags n false false p (by rw [hx]; exact List.mem_cons_self p ps)
    cases hp : p.1
    · cases h.2 hp
    · cases h.1 hp

theorem walkForest_root_pushes_nil (f : PForest) : (walkForest f false false).2 = [] := by
  cases hx : (walkForest f false false).2 with
  | nil => rfl
  | cons p ps =>
    have h := walkForest_pushes_flags f false false p
      (by rw [hx]; exact List.mem_cons_self p ps)
    cases hp : p.1
    · cases h.2 hp
    · cases h.1 hp

mutual
/-- A proj-marked push always carries the pushing node's own tag: a node
only ever pushes itself to the proj collector. -/
theorem walk_true_pushes (n : PNode) (pa na : Bool) :
    ∀ p ∈ (walk n pa na).2, p.1 = true → p.2.tag = n.tag := by
  cases n with
  | mk tag receiver projBack outClips children =>
    intro p hp htrue
    rw [walk] at hp
    by_cases hrec : receiver
    · simp only [hrec, if_true, List.mem_map, List.mem_filter] at hp
      obtain ⟨q, ⟨_, _⟩, hq2⟩ := hp
      rw [← hq2] at htrue
      cases htrue
    · by_cases hproj : (projBack && pa) = true
      · simp only [hrec, Bool.false_eq_true, if_false, hproj, if_true,
          List.mem_singleton] at hp
        subst hp
        rfl
      · simp only [hrec, Bool.false_eq_true, if_false, hproj, List.mem_map] at hp
        obtain ⟨q, _, hq2⟩ := hp
        rw [← hq2] at htrue
        cases htrue
/-- A proj-marked push out of a forest is the self-push of one of its
nodes. -/
theorem walkForest_true_pushes (f : PForest) (pa na : Bool) :
    ∀ p ∈ (walkForest f pa na).2, p.1 = true → ∃ c ∈ f.toList, p.2.tag = c.tag := by
  cases f with
  | nil =>
    intro p hp
    rw [walkForest] at hp
    cases hp
  | cons c cs =>
    intro p hp htrue
    rw [walkForest] at hp
    rw [PForest.toList]
    rcases List.mem_append.mp hp with h | h
    · exact ⟨c, List.mem_cons_self c cs.toList, walk_true_pushes c pa na p h htrue⟩
    · obtain ⟨d, hd, htag⟩ := walkForest_true_pushes cs pa na p h htrue
      exact ⟨d, List.mem_cons_of_mem c hd, htag⟩
end

mutual
/-- A next-marked push out of a node originates strictly below it: the
pushed tag lies inside the subtree of one of the node's children. -/
theorem walk_false_pushes_depth (n : PNode) (pa na : Bool) :
    ∀ p ∈ (walk n pa na).2, p.1 = false →
      ∃ c ∈ n.childrenF.toList, p.2.tag ∈ c.tags := by
  cases n with
  | mk tag receiver projBack outClips children =>
    intro p hp hfalse
    rw [walk] at hp
    by_cases hrec : receiver
    · simp only [hrec, if_true, List.mem_map, List.mem_filter] at hp
      obtain ⟨q, ⟨hq, hq1⟩, hq2⟩ := hp
      obtain ⟨c, hc, htag⟩ := walkForest_true_pushes children na true q hq hq1
      refine ⟨c, hc, ?_⟩
      rw [← hq2, htag]
      exact PNode.tag_mem_tags c
    · by_cases hproj : (projBack && pa) = true
      · simp only [hrec, Bool.false_eq_true, if_false, hproj, if_true,
          List.mem_singleton] at hp
        subst hp
        cases hfalse
      · simp only [hrec, Bool.false_eq_true, if_false, hproj, List.mem_map] at hp
        obtain ⟨q, hq, hq2⟩ := hp
        cases hq1 : q.1
        · obtain ⟨c, hc, htag⟩ := walkForest_false_pushes_depth children na na q hq hq1
          refine ⟨c, hc, ?_⟩
          rw [← hq2]
          exact htag
        · obtain ⟨c, hc, htag⟩ := walkForest_true_pushes children na na q hq hq1
          refine ⟨c, hc, ?_⟩
          rw [← hq2, htag]
          exact PNode.tag_mem_tags c
/-- A next-marked push out of a forest lies inside the subtree of one of
the forest's nodes. -/
theorem walkForest_false_pushes_depth (f : PForest) (pa na : Bool) :
    ∀ p ∈ (walkForest f pa na).2, p.1 = false →
      ∃ c ∈ f.toList, p.2.tag ∈ c.tags := by
  cases f with
  | nil =>
    intro p hp
    rw [walkForest] at hp
    cases hp
  | cons c cs =>
    intro p hp hfalse
    rw [walkForest] at hp
    rw [PForest.toList]
    rcases List.mem_append.mp hp with h | h
    · obtain ⟨d, hd, htag⟩ := walk_false_pushes_depth c pa na p h hfalse
      exact ⟨c, List.mem_cons_self c cs.toList,
        PNode.mem_tags_of_child c d hd p.2.tag htag⟩
    · obtain ⟨d, hd, htag⟩ := walkForest_false_pushes_depth cs pa na p h hfalse
      exact ⟨d, List.mem_cons_of_mem c hd, htag⟩
end

/-- A next-marked push out of a forest lies at depth at least two below
the forest's roots: inside the subtree of a grandchild. -/
theorem walkForest_false_pushes_grandchild : (f : PForest) → (pa na : Bool) →
    ∀ p ∈ (walkForest f pa na).2, p.1 = false →
      ∃ c ∈ f.toList, ∃ gc ∈ c.childrenF.toList, p.2.tag ∈ gc.tags
  | PForest.nil, pa, na => by
    intro p hp
    rw [walkForest] at hp
    cases hp
  | PForest.cons c cs, pa, na => by
    intro p hp hfalse
    rw [walkForest] at hp
    rw [PForest.toList]
    rcases List.mem_append.mp hp with h | h
    · obtain ⟨gc, hgc, htag⟩ := walk_false_pushes_depth c pa na p h hfalse
      exact ⟨c, List.mem_cons_self c cs.toList, gc, hgc, htag⟩
    · obtain ⟨d, hd, gc, hgc, htag⟩ :=
        walkForest_false_pushes_grandchild cs pa na p h hfalse
      exact ⟨d, List.mem_cons_of_mem c hd, gc, hgc, htag⟩

/-- Everything a receiver collects locally sits at least two generations
below it: inside the subtree of a grandchild, never a direct child. -/
theorem receiverCollected_grandchild (children : PForest) (na : Bool) :
    ∀ item ∈ receiverCollected children na,
      ∃ c ∈ children.toList, ∃ gc ∈ c.childrenF.toList, item.tag ∈ gc.tags := by
  intro item hitem
  simp only [receiverCollected, List.mem_map, List.mem_filter] at hitem
  obtain ⟨q, ⟨hq, hq1⟩, hq2⟩ := hitem
  have hfalse : q.1 = false := by
    cases h : q.1
    · rfl
    · rw [h] at hq1
      cases hq1
  obtain ⟨c, hc, gc, hgc, htag⟩ :=
    walkForest_false_pushes_grandchild children na true q hq hfalse
  rw [← hq2]
  exact ⟨c, hc, gc, hgc, htag⟩

theorem contentTags_cons_content (t : ℕ) (l : List PEv) :
    contentTags (PEv.content t :: l) = t :: contentTags l := by
  simp [contentTags]

theorem contentTags_append (a b : List PEv) :
    contentTags (a ++ b) = contentTags a ++ contentTags b := by
  simp [contentTags]

theorem pushContents_append (a b : List (Bool × PushItem)) :
    pushContents (a ++ b) = pushContents a ++ pushContents b := by
  simp [pushContents]

/-- Re-marking pushes (the retargeting a non-receiver performs when it
forwards its children's pushes) does not change the content inside them. -/
theorem pushContents_retag (ps : List (Bool × PushItem)) :
    pushContents (ps.map (fun p => ((false : Bool), p.2))) = pushContents ps := by
  simp only [pushContents, List.map_map]
  rfl

theorem contentTags_flatten : (L : List (List PEv)) →
    contentTags L.flatten = (L.map contentTags).flatten
  | [] => rfl
  | x :: xs => by
    simp [contentTags_append, contentTags_flatten xs]

/-- The content of a receiver's replay of its collected nodes is exactly
the content recorded in the collected pushes. -/
theorem contentTags_projTrace (ps : List (Bool × PushItem)) :
    contentTags (((ps.map Prod.snd).map PushItem.replay).flatten) = pushContents ps := by
  rw [contentTags_flatten]
  simp only [pushContents, List.map_map]
  rfl

/-- The save/clipOutline/restore bracket contributes no content events. -/
theorem contentTags_clipWrap (oc : Bool) (X : List PEv) :
    contentTags (if oc then PEv.clipPush :: X ++ [PEv.clipPop] else X) = contentTags X := by
  cases oc
  · rfl
  · simp [contentTags_append, contentTags]

theorem perm_append_middle_swap (a b c d : List ℕ) :
    ((a ++ b) ++ (c ++ d)).Perm ((a ++ c) ++ (b ++ d)) := by
  have h2 : ((b ++ c) ++ d).Perm ((c ++ b) ++ d) :=
    (List.perm_append_comm).append_right d
  have h : (b ++ (c ++ d)).Perm (c ++ (b ++ d)) := by
    simpa [List.append_assoc] using h2
  simpa [List.append_assoc] using List.Perm.append_left a h

theorem pushContents_perm {ps qs : List (Bool × PushItem)} (h : ps.Perm qs) :
    (pushContents ps).Perm (pushContents qs) := by
  simp only [pushContents]
  exact (h.map (fun p => contentTags p.2.replay)).flatten

/-- Splitting a push list into its next-marked and proj-marked parts
conserves its content. -/
theorem pushContents_partition_perm (ps : List (Bool × PushItem)) :
    (pushContents (ps.filter (fun p => !p.1)) ++
      pushContents (ps.filter (fun p => p.1))).Perm (pushContents ps) := by
  rw [← pushContents_append]
  refine pushContents_perm ?_
  have h := List.filter_append_perm (fun p => !p.1) ps
  simpa [Bool.not_not] using h

theorem contentTags_nil : contentTags [] = [] := rfl

mutual
/-- Conservation: the content a node emits in place plus the content it
pushes to collectors is, as a multiset, exactly its subtree. Nothing is
ever duplicated by projection and nothing is lost. -/
theorem walk_content_perm (n : PNode) (pa na : Bool) :
    (contentTags (walk n pa na).1 ++ pushContents (walk n pa na).2).Perm n.tags := by
  cases n with
  | mk tag receiver projBack outClips children =>
    rw [walk, PNode.tags]
    by_cases hrec : receiver
    · simp only [hrec, if_true]
      rw [contentTags_append, contentTags_cons_content, contentTags_clipWrap,
        contentTags_projTrace, pushContents_retag]
      rw [List.cons_append, List.cons_append, List.append_assoc]
      refine List.Perm.cons tag ?_
      refine List.Perm.trans
        (List.Perm.append_left _
          (pushContents_partition_perm (walkForest children na true).2)) ?_
      exact walkForest_content_perm children na true
    · by_cases hproj : (projBack && pa) = true
      · simp only [hrec, Bool.false_eq_true, if_false, hproj, if_true]
        have hnil := walkForest_root_pushes_nil children
        have hperm := walkForest_content_perm children false false
        rw [hnil] at hperm
        have hperm2 : (contentTags (walkForest children false false).1).Perm
            (PForest.tags children) := by
          simpa [pushContents] using hperm
        simpa [contentTags_nil, pushContents, contentTags_cons_content]
          using List.Perm.cons tag hperm2
      · simp only [hrec, Bool.false_eq_true, if_false, hproj]
        rw [contentTags_cons_content, pushContents_retag, List.cons_append]
        exact List.Perm.cons tag (walkForest_content_perm children na na)
/-- Conservation over a forest of siblings. -/
theorem walkForest_content_perm (f : PForest) (pa na : Bool) :
    (contentTags (walkForest f pa na).1 ++ pushContents (walkForest f pa na).2).Perm
      f.tags := by
  cases f with
  | nil =>
    rw [walkForest, PForest.tags]
    exact List.Perm.refl _
  | cons c cs =>
    rw [walkForest, PForest.tags]
    refine List.Perm.trans ?_
      ((walk_content_perm c pa na).append (walkForest_content_perm cs pa na))
    refine List.Perm.trans ?_ (perm_append_middle_swap _ _ _ _)
    rw [← contentTags_append, ← pushContents_append]
end

/-- The frame's content is a permutation of the tree's tags: projection
reorders content but never duplicates or drops it. -/
theorem rootDraw_content_perm (n : PNode) :
    (contentTags (rootDraw n)).Perm n.tags := by
  have h := walk_content_perm n false false
  rw [walk_root_pushes_nil n] at h
  simpa [rootDraw, pushContents] using h

theorem rootDraw_count_one (n : PNode) (hn : n.tags.Nodup) :
    ∀ t ∈ n.tags, (contentTags (rootDraw n)).count t = 1 := by
  intro t ht
  rw [(rootDraw_content_perm n).count_eq]
  exact List.count_eq_one_of_mem hn ht

/-- The example tree of the projection walk: a receiver whose grandchild
projects backwards onto it. -/
def exProj : PNode :=
  PNode.mk 0 true false false
    (PForest.cons (PNode.mk 2 false false false
      (PForest.cons (PNode.mk 1 false true false PForest.nil) PForest.nil)) PForest.nil)

/-- C9: a projects-backwards node is never drawn twice within one frame.
With distinct node tags every tag appears exactly once in the frame's
content (first conjunct pair). When its collector target is active, a
projects-backwards node is withheld from its in-order position: its walk
emits nothing in place (second conjunct). Everything a receiver collects
lies at least two generations below it — inside a grandchild's subtree,
never a direct child (third conjunct). The receiver replays the collected
nodes after its own content and its children, bracketed by the outline
clip exactly when the outline clips (fourth conjunct). -/
theorem projection_non_self_loop
    (n : PNode) (hn : n.tags.Nodup)
    (tag : ℕ) (oc : Bool) (children : PForest) (na : Bool)
    (rtag : ℕ) (roc : Bool) (rchildren : PForest) (rpa rna : Bool) :
    ((contentTags (rootDraw n)).Perm n.tags ∧
      ∀ t ∈ n.tags, (contentTags (rootDraw n)).count t = 1)
    ∧ (walk (PNode.mk tag false true oc children) true na).1 = []
    ∧ (∀ item ∈ receiverCollected rchildren rna,
        ∃ c ∈ rchildren.toList, ∃ gc ∈ c.childrenF.toList, item.tag ∈ gc.tags)
    ∧ (walk (PNode.mk rtag true false roc rchildren) rpa rna).1 =
        (PEv.content rtag :: (walkForest rchildren rna true).1) ++
          (if roc then
            PEv.clipPush ::
              ((receiverCollected rchildren rna).map PushItem.replay).flatten ++
              [PEv.clipPop]
          else ((receiverCollected rchildren rna).map PushItem.replay).flatten) := by
  refine ⟨⟨rootDraw_content_perm n, rootDraw_count_one n hn⟩, ?_,
    receiverCollected_grandchild rchildren rna, ?_⟩
  · rw [walk]
    rfl
  · rw [walk]
    rfl

/-- Witness: in the concrete receiver/child/projecting-grandchild tree,
tags are distinct, each is drawn exactly once, the projecting node emits
nothing in place when its collector is active, and the frame draws it
last, via the receiver. -/
theorem projection_non_self_loop_witness :
    exProj.tags.Nodup ∧
      (∀ t ∈ exProj.tags, (contentTags (rootDraw exProj)).count t = 1) ∧
      (walk (PNode.mk 1 false true false PForest.nil) true false).1 = [] ∧
      rootDraw exProj = [PEv.content 0, PEv.content 2, PEv.content 1] := by
  have h := projection_non_self_loop exProj (by decide) 1 false PForest.nil false
    0 false exProj.childrenF false false
  exact ⟨by decide, h.1.2, h.2.1, by decide⟩
